import Mathlib

/-!
Verification development for the gala snapshot consisting of the potential
evaluation layer (`cpotential.pyx`, the unnamed source file) and the
mock-stream driver (`gala/dynamics/mockstream/new_mockstream.pyx`).

The Cython code is shallowly embedded: machine doubles are modelled as exact
rationals (`ℚ`), in-place buffer mutation as explicit state passing over
`List`s, and Python exceptions as `Except` values.  A separate small IEEE-754
special-value model (`FpVal`) is used for the one claim whose content is the
production of non-finite values; it tracks NaN/Inf propagation exactly and
performs exact arithmetic on finite values (rounding is irrelevant to the
finiteness facts proved here).

Square roots are not rational, so wherever the source computes
`r = sqrt(x*x + y*y + z*z)` the embedding takes `r` as an explicit argument;
theorems that depend on the geometric meaning of `r` carry the hypothesis
`r * r = x^2 + y^2 + z^2` together with `0 ≤ r`, which characterises the
square root exactly.
-/

/-! ## Positions, gradients and Hessians (`cpotential.pyx`)

A row of a `(n, 3)` position array is a `V3`; a per-row gradient buffer row is
also a `V3`; a per-row Hessian buffer is an `M3`. -/

abbrev V3 : Type := Fin 3 → ℚ

abbrev M3 : Type := Fin 3 → Fin 3 → ℚ

/-- Embedding of `_CPotential._mass_enclosed`:

    h = 0.01
    r = sqrt(q[k,0]**2 + q[k,1]**2 + q[k,2]**2)
    epsilon[0,j] = h * q[k,j]/r + q[k,j]   ;  dPhi_dr  = _value(epsilon, 0)
    epsilon[0,j] = h * q[k,j]/r - q[k,j]   ;  dPhi_dr -= _value(epsilon, 0)
    return fabs(r*r * dPhi_dr / Gee / (2.*h))

`value_` is the (virtually dispatched) `_value` hook of the instance; `r` is
the square root computed by the source, taken here as an argument. -/
def mass_enclosed_hook (value_ : V3 → ℚ) (q : V3) (r : ℚ) (G : ℚ) : ℚ :=
  let h : ℚ := 1/100
  let eps1 : V3 := fun j => h * q j / r + q j
  let eps2 : V3 := fun j => h * q j / r - q j
  |r * r * (value_ eps1 - value_ eps2) / G / (2 * h)|

/-- The enclosed-mass formula exactly as the claim states it:
`|r² · (Φ(r + h·r̂) − Φ(r − h·r̂)) / (2h) / G|` with `h = 0.01·r`, both
evaluations along the radial unit vector through the query point.  This
definition follows the claim wording, for comparison with
`mass_enclosed_hook`, which follows the source. -/
def specMassEnclosed (value_ : V3 → ℚ) (q : V3) (r : ℚ) (G : ℚ) : ℚ :=
  let h : ℚ := r / 100
  let rhat : V3 := fun j => q j / r
  |r * r * (value_ (fun j => q j + h * rhat j) - value_ (fun j => q j - h * rhat j))
      / (2 * h) / G|

/-- A `_CPotential` instance, characterised by its four private hooks.
`pgrad` and `phess` act on one row of the caller-owned output buffer
(source: `_gradient(self, r, grad, k)` mutates row `k` of `grad` in place;
the public wrapper allocates the buffer as zeros).  `pmass` takes the
radius `r` of the query point as an argument (see the module comment). -/
structure CPotInstance where
  pval : V3 → ℚ
  pgrad : V3 → V3 → V3
  phess : V3 → M3 → M3
  pmass : V3 → ℚ → ℚ → ℚ

/-- The un-overridden `_CPotential._value` default: `return 0.`. -/
def baseValueHook : V3 → ℚ := fun _ => 0

/-- The un-overridden `_CPotential._gradient` default: it writes zeros into
the gradient buffer (source: `grad[0] = 0.; grad[1] = 0.; grad[2] = 0.`). -/
def baseGradHook : V3 → V3 → V3 := fun _ _ => 0

/-- The un-overridden `_CPotential._hessian` default: writes zeros. -/
def baseHessHook : V3 → M3 → M3 := fun _ _ => 0

/-- A bare `_CPotential` instance: every hook is the base default; the mass
hook is the base `_mass_enclosed` finite difference over the base `_value`. -/
def mkBase : CPotInstance :=
  { pval := baseValueHook
    pgrad := baseGradHook
    phess := baseHessHook
    pmass := fun q r G => mass_enclosed_hook baseValueHook q r G }

/-- A `_CPotential` subclass that overrides only `_value` (the "potential
providing only `value`" of the spec).  `_gradient`, `_hessian` stay at the
base defaults; `_mass_enclosed` is inherited and dispatches to the
overridden `_value`. -/
def mkValueOnly (v : V3 → ℚ) : CPotInstance :=
  { pval := v
    pgrad := baseGradHook
    phess := baseHessHook
    pmass := fun q r G => mass_enclosed_hook v q r G }

/-- Modelled from the spec: a concrete leaf potential overriding `_value`,
`_gradient` and `_hessian`.  The concrete leaf implementations (the builtin
potentials) are not part of the analysed sources; per the spec the composite
"sums child gradients component-wise", which with the composite's dispatch
loop (each child hook applied in turn to the same buffer row) requires leaf
hooks to accumulate their contribution into the buffer. -/
def mkLeaf (v : V3 → ℚ) (g : V3 → V3) (hs : V3 → M3) : CPotInstance :=
  { pval := v
    pgrad := fun q buf => buf + g q
    phess := fun q buf => buf + hs q
    pmass := fun q r G => mass_enclosed_hook v q r G }

/-- Public `_CPotential.value`: writes `_value` of each row into the
caller-provided output array (allocated as zeros by `CPotential.value`). -/
def cpot_value (c : CPotInstance) (q : List V3) : List ℚ :=
  q.map c.pval

/-- Public `_CPotential.gradient`: allocates `grad = np.zeros((n,3))`, then
applies the `_gradient` hook to each row, and returns the buffer. -/
def cpot_gradient (c : CPotInstance) (q : List V3) : List V3 :=
  q.map (fun qk => c.pgrad qk 0)

/-- Public `_CPotential.hessian`: allocates `hess = np.zeros((n,3,3))`, then
applies the `_hessian` hook to each row. -/
def cpot_hessian (c : CPotInstance) (q : List V3) : List M3 :=
  q.map (fun qk => c.phess qk 0)

/-- Public `_CPotential.mass_enclosed`: applies the `_mass_enclosed` hook to
each row with the instance gravitational constant `G`.  `rOf` supplies each
row's radius (the square root the source computes internally). -/
def cpot_mass_enclosed (c : CPotInstance) (q : List V3) (rOf : V3 → ℚ) (G : ℚ) : List ℚ :=
  q.map (fun qk => c.pmass qk (rOf qk) G)

/-! ### `_CCompositePotential` (`cpotential.pyx`, lines 239-282)

The composite's four hooks loop over `obj_list[0..ninstances)` and dispatch
to each child's hook. -/

/-- `_CCompositePotential._value`: `v = 0.; for i: v += child._value(q, k)`. -/
def compValueHook (cs : List CPotInstance) : V3 → ℚ :=
  fun q => cs.foldl (fun v c => v + c.pval q) 0

/-- `_CCompositePotential._gradient`: each child's `_gradient` hook is applied
in turn to the same buffer row. -/
def compGradHook (cs : List CPotInstance) : V3 → V3 → V3 :=
  fun q buf => cs.foldl (fun b c => c.pgrad q b) buf

/-- `_CCompositePotential._hessian`: each child's `_hessian` hook is applied
in turn to the same buffer row. -/
def compHessHook (cs : List CPotInstance) : V3 → M3 → M3 :=
  fun q buf => cs.foldl (fun b c => c.phess q b) buf

/-- `_CCompositePotential._mass_enclosed`: `mm = 0.; for i: mm += child._mass_enclosed(...)`. -/
def compMassHook (cs : List CPotInstance) : V3 → ℚ → ℚ → ℚ :=
  fun q r G => cs.foldl (fun m c => m + c.pmass q r G) 0

/-- The `_CCompositePotential` instance built from its children. -/
def compInstance (cs : List CPotInstance) : CPotInstance :=
  { pval := compValueHook cs
    pgrad := compGradHook cs
    phess := compHessHook cs
    pmass := compMassHook cs }

/-! ### The Python wrapper class `CPotential` (`cpotential.pyx`, lines 26-133)

`CPotential.gradient` does

    try:
        return self.c_instance.gradient(np.array(q))
    except AttributeError,TypeError:
        raise ValueError("Potential C instance has no defined gradient function")

(the Python-2 form `except AttributeError,TypeError:` catches `AttributeError`
and binds it to the name `TypeError`).  An attribute lookup on `c_instance`
either finds a bound method or raises `AttributeError`; the wrapper converts
the latter into a `ValueError`.  There is no `NotSupported` exception anywhere
in the source; the constructor below exists so that its absence from every
outcome is expressible. -/

/-- Python exceptions relevant to the wrapper layer. -/
inductive PyExc
  | valueError (msg : String)
  | notSupported
  deriving DecidableEq

/-- A `c_instance` object as seen by the Python wrapper: each operation is
either a present attribute (a callable) or absent (lookup raises
`AttributeError`). -/
structure CInstanceObj where
  value_attr : Option (List V3 → List ℚ)
  gradient_attr : Option (List V3 → List V3)
  hessian_attr : Option (List V3 → List M3)

/-- Every `_CPotential`-derived instance exposes all three `cpdef` methods,
so all attributes are present. -/
def cinstanceOf (c : CPotInstance) : CInstanceObj :=
  { value_attr := some (cpot_value c)
    gradient_attr := some (cpot_gradient c)
    hessian_attr := some (cpot_hessian c) }

/-- `CPotential.gradient(self, q)`. -/
def CPotential_gradient (c : CInstanceObj) (q : List V3) : Except PyExc (List V3) :=
  match c.gradient_attr with
  | some f => .ok (f q)
  | none => .error (.valueError "Potential C instance has no defined gradient function")

/-- `CPotential.hessian(self, q)`. -/
def CPotential_hessian (c : CInstanceObj) (q : List V3) : Except PyExc (List M3) :=
  match c.hessian_attr with
  | some f => .ok (f q)
  | none => .error (.valueError "Potential C instance has no defined Hessian function")

/-! ### IEEE-754 special values for `_mass_enclosed` (division-by-zero claim)

`FpVal` tracks the special values of a double exactly; arithmetic on finite
values is exact (rounding does not affect which values are NaN/Inf here).
Signed zeros are collapsed to `fin 0`. -/

/-- A double: a finite value, a NaN, or a signed infinity. -/
inductive FpVal
  | fin (x : ℚ)
  | nan
  | inf (neg : Bool)
  deriving DecidableEq

/-- IEEE negation. -/
def fneg : FpVal → FpVal
  | .fin x => .fin (-x)
  | .nan => .nan
  | .inf s => .inf (!s)

/-- IEEE addition (special-value rules; exact on finite values). -/
def fadd : FpVal → FpVal → FpVal
  | .nan, _ => .nan
  | _, .nan => .nan
  | .inf s, .inf t => if s = t then .inf s else .nan
  | .inf s, .fin _ => .inf s
  | .fin _, .inf t => .inf t
  | .fin x, .fin y => .fin (x + y)

/-- IEEE subtraction. -/
def fsub (a b : FpVal) : FpVal := fadd a (fneg b)

/-- IEEE multiplication (`0 * Inf = NaN`). -/
def fmul : FpVal → FpVal → FpVal
  | .nan, _ => .nan
  | _, .nan => .nan
  | .inf s, .inf t => .inf (xor s t)
  | .inf s, .fin y => if y = 0 then .nan else .inf (xor s (y < 0))
  | .fin x, .inf t => if x = 0 then .nan else .inf (xor (x < 0) t)
  | .fin x, .fin y => .fin (x * y)

/-- IEEE division (`0/0 = NaN`, `x/0 = ±Inf` for `x ≠ 0`, `Inf/Inf = NaN`). -/
def fdiv : FpVal → FpVal → FpVal
  | .nan, _ => .nan
  | _, .nan => .nan
  | .inf _, .inf _ => .nan
  | .inf s, .fin y => .inf (xor s (y < 0))
  | .fin _, .inf _ => .fin 0
  | .fin x, .fin y =>
      if y = 0 then (if x = 0 then .nan else .inf (x < 0)) else .fin (x / y)

/-- IEEE `fabs`. -/
def fabsFp : FpVal → FpVal
  | .fin x => .fin |x|
  | .nan => .nan
  | .inf _ => .inf false

/-- Whether a double is finite (neither NaN nor an infinity). -/
def FpVal.isFinite : FpVal → Bool
  | .fin _ => true
  | _ => false

/-- `_CPotential._mass_enclosed` re-embedded over IEEE doubles, operation for
operation (compare `mass_enclosed_hook`, the exact-rational embedding).  As
there, `r` stands for the internally computed square root of `q·q`. -/
def mass_enclosed_fp (value_ : (Fin 3 → FpVal) → FpVal) (q : Fin 3 → FpVal)
    (r : FpVal) (G : FpVal) : FpVal :=
  let h : FpVal := .fin (1/100)
  let eps1 : Fin 3 → FpVal := fun j => fadd (fmul h (fdiv (q j) r)) (q j)
  let eps2 : Fin 3 → FpVal := fun j => fsub (fmul h (fdiv (q j) r)) (q j)
  let dPhi_dr : FpVal := fsub (value_ eps1) (value_ eps2)
  fabsFp (fdiv (fdiv (fmul (fmul r r) dPhi_dr) G) (fmul (.fin 2) h))

/-! ### The composite's child table (`cpotential.pyx`, lines 239-254)

`_CCompositePotential` stores its children in `cdef PyObject *obj_list[100]`,
a fixed-capacity C array; `_more_init` copies each element of `py_instances`
into it with no bounds check (`boundscheck=False`).  The model records an
out-of-capacity write in `oob` instead of performing undefined behaviour. -/

/-- The static capacity of `obj_list`. -/
def OBJ_LIST_CAPACITY : ℕ := 100

/-- The composite's child-pointer table: 100 real slots plus a record of
attempted out-of-capacity writes (undefined behaviour in the C code). -/
structure ObjTable (α : Type) where
  slot : ℕ → Option α
  oob : List ℕ

/-- One write `obj_list[i] = v`. -/
def objTableWrite (t : ObjTable α) (i : ℕ) (v : α) : ObjTable α :=
  if i < OBJ_LIST_CAPACITY then
    { t with slot := fun j => if j = i then some v else t.slot j }
  else
    { t with oob := t.oob ++ [i] }

/-- `_CCompositePotential._more_init`:
`for i in range(self.ninstances): self.obj_list[i] = <PyObject *>self.py_instances[i]`. -/
def more_init [Inhabited α] (instances : List α) : ObjTable α :=
  (List.range instances.length).foldl
    (fun t i => objTableWrite t i (instances.getD i default))
    ⟨fun _ => none, []⟩


/-! ## The mock-stream driver (`new_mockstream.pyx`, `mockstream_dop853`)

A phase-space row is a `W6` (x, y, z, vx, vy, vz).  The DOP853 integrator
lives in a different source file; per the spec it exposes a full-trajectory
helper and a single-span stepping call, modelled as opaque state
transformers. -/

abbrev W6 : Type := Fin 6 → ℚ

instance : Inhabited W6 := ⟨fun _ => 0⟩

/-- Modelled from the spec: the adaptive DOP853 integrator
(`dop853_helper_save_all` and `dop853_step`, defined in
`integrate/cyintegrators/dop853`, which is not among the analysed sources).
`helperSaveAll w0 time` records the state of every orbit at every requested
time (full-trajectory mode); `step ws t1 t2 dt0` advances the states `ws`
from `t1` to `t2` in single-span stepping mode and returns only the final
states (the C call mutates the first `norbits` rows of its buffer in
place). -/
structure Integrator where
  helperSaveAll : List W6 → List ℚ → List (List W6)
  step : List W6 → ℚ → ℚ → ℚ → List W6

/-- Exceptions the driver can surface: numpy `ValueError`s and the
`KeyboardInterrupt` delivered by `PyErr_CheckSignals`. -/
inductive StreamExc
  | valueError (msg : String)
  | keyboardInterrupt
  deriving DecidableEq

/-- A contiguous block write `l[off+0], l[off+1], ... := blk`, as done by the
driver's inner `for j ... for k ...` copy loops (`List.set` ignores writes
past the end, where the `boundscheck=False` C code would be undefined). -/
def writeBlock : List α → ℕ → List α → List α
  | l, _, [] => l
  | l, off, b :: bs => writeBlock (l.set off b) (off + 1) bs

/-- `np.max` on a nonempty int array (the driver's `max_nstream`); the `[]`
case is never reached because the driver raises first. -/
def npMax (l : List ℤ) : ℤ :=
  match l with
  | [] => 0
  | s :: ss => ss.foldl max s

/-- Sum of the release counts of the time steps before step `i` — the value
of the driver's running cursor `n` at the start of iteration `i`. -/
def nsumBefore (nstream : List ℤ) (i : ℕ) : ℤ :=
  ((nstream.take i).sum)

/-- The rows `stream_w0[n+j], j < nstream[i]` appended to the working buffer
at iteration `i` (`w_tmp[nbodies+j,k] = stream_w0[n+j,k]`).  A negative
`nstream[i]` makes the Python `range` empty; a negative read index would be
undefined behaviour in the C code (`wraparound=False`) and is clamped here. -/
def releaseBatch (stream_w0 : List W6) (nstream : List ℤ) (i : ℕ) (n : ℤ) : List W6 :=
  (List.range (nstream.getD i 0).toNat).map
    (fun (j : ℕ) => stream_w0.getD (n + (j : ℤ)).toNat default)

/-- Iteration `i`'s seeding of the working buffer (lines 118-124): rows
`j < nbodies` are overwritten with `nbody_w[i,j]`, rows `nbodies+j` for
`j < nstream[i]` with the freshly released particles. -/
def seedTmp (nbody_w : List (List W6)) (stream_w0 : List W6) (nbodies : ℕ)
    (nstream : List ℤ) (i : ℕ) (n : ℤ) (w : List W6) : List W6 :=
  writeBlock (writeBlock w 0 ((nbody_w.getD i []).take nbodies))
    nbodies (releaseBatch stream_w0 nstream i n)

/-- The `norbits` argument of the `dop853_step` call at iteration `i`:
`nbodies + nstream[i]` (a negative total would wrap around as C `unsigned`,
again undefined behaviour downstream; clamped here). -/
def norbitsAt (nbodies : ℕ) (nstream : List ℤ) (i : ℕ) : ℕ :=
  ((nbodies : ℤ) + nstream.getD i 0).toNat

/-- The exact rows handed to the single-span stepping call at iteration `i`:
the recorded massive-body states at step `i` followed by the particles
released at step `i` (with the cursor at its loop value `nsumBefore`). -/
def stepInputOf (nbody_w : List (List W6)) (stream_w0 : List W6) (nbodies : ℕ)
    (nstream : List ℤ) (i : ℕ) : List W6 :=
  ((nbody_w.getD i []).take nbodies)
    ++ releaseBatch stream_w0 nstream i (nsumBefore nstream i)

/-- The claim's count of orbits advanced by the stepping call at iteration
`i`: the massive bodies plus all stream particles released at steps up to
and including `i`.  This definition follows the claim wording, for
comparison with `norbitsAt`, which follows the source. -/
def specCumulativeOrbits (nbodies : ℕ) (nstream : List ℤ) (i : ℕ) : ℕ :=
  nbodies + ((nstream.take (i + 1)).sum).toNat

/-- The driver's per-iteration loop state: the transient working buffer
`w_tmp`, the permanent output buffer `w_final`, and the release cursor `n`. -/
structure LoopState where
  w_tmp : List W6
  w_final : List W6
  n : ℤ
  deriving DecidableEq

/-- One iteration of the release loop (lines 116-137, except the signal
poll): seed `w_tmp`, advance its first `nbodies + nstream[i]` rows from
`stream_t1[i]` to `t2` in one span, copy the released particles' final rows
into `w_final` at offset `nbodies + n`, and advance the cursor. -/
def mockstreamIter (I : Integrator) (nbody_w : List (List W6))
    (stream_w0 : List W6) (stream_t1 : List ℚ) (t2 dt0 : ℚ) (nbodies : ℕ)
    (nstream : List ℤ) (st : LoopState) (i : ℕ) : LoopState :=
  let w1 := seedTmp nbody_w stream_w0 nbodies nstream i st.n st.w_tmp
  let nor := norbitsAt nbodies nstream i
  let adv := I.step (w1.take nor) (stream_t1.getD i 0) t2 dt0
  let w2 := adv ++ w1.drop nor
  let outBatch := (w2.drop nbodies).take (nstream.getD i 0).toNat
  let wf := writeBlock st.w_final ((nbodies : ℤ) + st.n).toNat outBatch
  ⟨w2, wf, st.n + nstream.getD i 0⟩

/-- The release loop with the per-iteration signal poll
(`PyErr_CheckSignals()` at line 135): each iteration's body runs to
completion, then the pending-signal flag for that iteration is polled; a
pending interrupt aborts the loop with `KeyboardInterrupt`. -/
def streamLoopGo (f : LoopState → ℕ → LoopState) (sig : ℕ → Bool) :
    List ℕ → LoopState → Except StreamExc LoopState
  | [], st => .ok st
  | i :: rest, st =>
      let st1 := f st i
      if sig i then .error .keyboardInterrupt else streamLoopGo f sig rest st1

/-- Embedding of `mockstream_dop853`.  `sig i` models whether
`PyErr_CheckSignals` finds a pending interrupt at the poll ending iteration
`i`.  The two `valueError` branches are numpy's: `np.max` of an empty array,
and `np.empty` with a negative dimension.  The body of `nbody` is reduced to
its initial conditions `nbody._w0`; the Hamiltonian and per-body potentials
only parametrise the opaque integrator calls. -/
def mockstream_dop853 (I : Integrator) (nbody_w0 : List W6) (time : List ℚ)
    (stream_w0 : List W6) (stream_t1 : List ℚ) (nstream : List ℤ)
    (sig : ℕ → Bool) : Except StreamExc (List W6) :=
  let ntimes := time.length
  let dt0 := time.getD 1 0 - time.getD 0 0
  let t2 := time.getD (ntimes - 1) 0
  let nbodies := nbody_w0.length
  if nstream = [] then
    .error (.valueError "zero-size array to reduction operation maximum")
  else
    let max_nstream : ℤ := npMax nstream
    let total_nstream : ℤ := nstream.sum
    if (nbodies : ℤ) + max_nstream < 0 ∨ (nbodies : ℤ) + total_nstream < 0 then
      .error (.valueError "negative dimensions are not allowed")
    else
      let w_tmp0 : List W6 := List.replicate ((nbodies : ℤ) + max_nstream).toNat default
      let w_final0 : List W6 := List.replicate ((nbodies : ℤ) + total_nstream).toNat default
      let nbody_w := I.helperSaveAll nbody_w0 time
      (streamLoopGo
          (mockstreamIter I nbody_w stream_w0 stream_t1 t2 dt0 nbodies nstream)
          sig (List.range ntimes) ⟨w_tmp0, w_final0, 0⟩).map
        (fun st => writeBlock st.w_final 0 (st.w_tmp.take nbodies))

/-- `Bool`-valued success test for `Except`. -/
def isOkB : Except ε α → Bool
  | .ok _ => true
  | .error _ => false

/-- The final rows of the particles released at step `i`, as reported by the
driver: the stepping call's output past the massive bodies. -/
def batchFinal (I : Integrator) (nbody_w : List (List W6)) (stream_w0 : List W6)
    (stream_t1 : List ℚ) (t2 dt0 : ℚ) (nbodies : ℕ) (nstream : List ℤ)
    (i : ℕ) : List W6 :=
  (I.step (stepInputOf nbody_w stream_w0 nbodies nstream i)
      (stream_t1.getD i 0) t2 dt0).drop nbodies

/-- All stream particles' final rows in release order. -/
def streamFinals (I : Integrator) (nbody_w : List (List W6)) (stream_w0 : List W6)
    (stream_t1 : List ℚ) (t2 dt0 : ℚ) (nbodies : ℕ) (nstream : List ℤ)
    (ntimes : ℕ) : List W6 :=
  (List.range ntimes).flatMap
    (batchFinal I nbody_w stream_w0 stream_t1 t2 dt0 nbodies nstream)

/-! ### The per-particle potential table (`new_mockstream.pyx`, lines 53, 97-105) -/

/-- `DEF MAX_NBODY = 1024`: the static size of `c_particle_potentials`. -/
def MAX_NBODY : ℕ := 1024

/-- The indices written by the two setup loops: `range(nbodies)` for the
massive bodies' potentials, then `range(nbodies, nbodies + max_nstream)` for
the null potentials of the stream particles.  No bounds check is performed
(`boundscheck=False`). -/
def particlePotentialWriteIdx (nbodies max_nstream : ℕ) : List ℕ :=
  List.range nbodies ++ List.range' nbodies max_nstream

/-- The loop state after the first `k` iterations of the release loop,
starting from working buffer `w0`, output buffer `wf0` and cursor `0`. -/
def loopStateAt (I : Integrator) (nbody_w : List (List W6)) (stream_w0 : List W6)
    (stream_t1 : List ℚ) (t2 dt0 : ℚ) (nbodies : ℕ) (nstream : List ℤ)
    (w0 wf0 : List W6) (k : ℕ) : LoopState :=
  (List.range k).foldl
    (mockstreamIter I nbody_w stream_w0 stream_t1 t2 dt0 nbodies nstream)
    ⟨w0, wf0, 0⟩

/-! ## Helper lemmas -/

theorem writeBlock_length : ∀ (blk l : List α) (off : ℕ),
    (writeBlock l off blk).length = l.length := by
  intro blk
  induction blk with
  | nil => intro l off; rfl
  | cons b bs ih => intro l off; rw [writeBlock, ih, List.length_set]

theorem writeBlock_cons_succ (a : α) : ∀ (blk l : List α) (off : ℕ),
    writeBlock (a :: l) (off + 1) blk = a :: writeBlock l off blk := by
  intro blk
  induction blk with
  | nil => intro l off; rfl
  | cons b bs ih =>
      intro l off
      rw [writeBlock, writeBlock, List.set]
      exact ih (l.set off b) (off + 1)

theorem writeBlock_zero : ∀ (blk l : List α), blk.length ≤ l.length →
    writeBlock l 0 blk = blk ++ l.drop blk.length := by
  intro blk
  induction blk with
  | nil => intro l _; rfl
  | cons b bs ih =>
      intro l h
      match l with
      | [] => simp at h
      | x :: xs =>
          rw [writeBlock, List.set, writeBlock_cons_succ, ih xs (by simpa using h)]
          rfl

theorem writeBlock_take (blk : List α) : ∀ (l : List α) (off : ℕ), off ≤ l.length →
    writeBlock l off blk = l.take off ++ writeBlock (l.drop off) 0 blk := by
  intro l
  induction l generalizing blk with
  | nil =>
      intro off h
      simp only [List.length_nil, Nat.le_zero] at h
      subst h
      simp
  | cons x xs ih =>
      intro off h
      match off with
      | 0 => simp
      | off + 1 =>
          rw [writeBlock_cons_succ, List.take_succ_cons, List.drop_succ_cons,
            ih blk off (by simpa using h)]
          rfl

theorem writeBlock_spec (blk l : List α) (off : ℕ) (h : off + blk.length ≤ l.length) :
    writeBlock l off blk = l.take off ++ blk ++ l.drop (off + blk.length) := by
  rw [writeBlock_take blk l off (by omega),
    writeBlock_zero blk (l.drop off) (by simp; omega)]
  rw [List.drop_drop, List.append_assoc]

theorem foldl_add_map {α β : Type} [AddCommMonoid α] (f : β → α) :
    ∀ (l : List β) (a : α), l.foldl (fun v c => v + f c) a = a + (l.map f).sum := by
  intro l
  induction l with
  | nil => intro a; simp
  | cons c cs ih => intro a; simp [ih, add_assoc]

theorem foldl_acc_hook {α β : Type} [AddCommMonoid α] (step : β → α → α) (l : List β)
    (h : ∀ c ∈ l, ∀ b, step c b = b + step c 0) :
    ∀ b, l.foldl (fun b c => step c b) b = b + (l.map (fun c => step c 0)).sum := by
  induction l with
  | nil => intro b; simp
  | cons c cs ih =>
      intro b
      have hc := h c (by simp)
      have hrest : ∀ d ∈ cs, ∀ b, step d b = b + step d 0 := by
        intro d hd; exact h d (by simp [hd])
      simp only [List.foldl_cons, List.map_cons, List.sum_cons]
      rw [ih hrest, hc b, add_assoc]

theorem streamLoopGo_ok (f : LoopState → ℕ → LoopState) (sig : ℕ → Bool) :
    ∀ (is : List ℕ) (st : LoopState), (∀ i ∈ is, sig i = false) →
      streamLoopGo f sig is st = .ok (is.foldl f st) := by
  intro is
  induction is with
  | nil => intro st _; rfl
  | cons i rest ih =>
      intro st h
      rw [streamLoopGo]
      simp only [h i (by simp)]
      exact ih (f st i) (fun j hj => h j (by simp [hj]))

theorem streamLoopGo_err (f : LoopState → ℕ → LoopState) (sig : ℕ → Bool) :
    ∀ (is1 : List ℕ) (c : ℕ) (is2 : List ℕ) (st : LoopState),
      (∀ i ∈ is1, sig i = false) → sig c = true →
      streamLoopGo f sig (is1 ++ c :: is2) st = .error .keyboardInterrupt := by
  intro is1
  induction is1 with
  | nil => intro c is2 st _ hc; rw [List.nil_append, streamLoopGo]; simp [hc]
  | cons i rest ih =>
      intro c is2 st h hc
      rw [List.cons_append, streamLoopGo]
      simp only [h i (by simp)]
      exact ih c is2 (f st i) (fun j hj => h j (by simp [hj])) hc

theorem streamLoopGo_congr (f : LoopState → ℕ → LoopState) (sig sig' : ℕ → Bool) :
    ∀ (is : List ℕ) (st : LoopState), (∀ i ∈ is, sig i = sig' i) →
      streamLoopGo f sig is st = streamLoopGo f sig' is st := by
  intro is
  induction is with
  | nil => intro st _; rfl
  | cons i rest ih =>
      intro st h
      rw [streamLoopGo, streamLoopGo, h i (by simp)]
      by_cases hs : sig' i = true
      · simp [hs]
      · simp only [Bool.not_eq_true] at hs
        simp only [hs, if_false, Bool.false_eq_true]
        exact ih (f st i) (fun j hj => h j (by simp [hj]))

theorem releaseBatch_length (stream_w0 : List W6) (nstream : List ℤ) (i : ℕ) (n : ℤ) :
    (releaseBatch stream_w0 nstream i n).length = (nstream.getD i 0).toNat := by
  rw [releaseBatch, List.length_map, List.length_range]

theorem getD_of_lt {α : Type} (l : List α) (i : ℕ) (d : α) (h : i < l.length) :
    l.getD i d = l[i] := by
  rw [List.getD_eq_getElem?_getD, List.getElem?_eq_getElem h, Option.getD_some]

theorem norbitsAt_eq (nbodies : ℕ) (nstream : List ℤ) (i : ℕ)
    (h : 0 ≤ nstream.getD i 0) :
    norbitsAt nbodies nstream i = nbodies + (nstream.getD i 0).toNat := by
  rw [norbitsAt, Int.toNat_add (by positivity) h, Int.toNat_natCast]

theorem getD_mem_of_lt (l : List ℤ) (i : ℕ) (h : i < l.length) : l.getD i 0 ∈ l := by
  rw [getD_of_lt l i 0 h]
  exact List.getElem_mem h

theorem nsumBefore_succ (nstream : List ℤ) (k : ℕ) (h : k < nstream.length) :
    nsumBefore nstream (k + 1) = nsumBefore nstream k + nstream.getD k 0 := by
  rw [nsumBefore, nsumBefore, List.take_succ, List.sum_append,
    List.getElem?_eq_getElem h, getD_of_lt nstream k 0 h]
  simp

theorem nsumBefore_nonneg (nstream : List ℤ) (hpos : ∀ x ∈ nstream, 0 ≤ x) (k : ℕ) :
    0 ≤ nsumBefore nstream k := by
  apply List.sum_nonneg
  intro x hx
  exact hpos x (List.mem_of_mem_take hx)

theorem nsumBefore_le_sum (nstream : List ℤ) (hpos : ∀ x ∈ nstream, 0 ≤ x) (k : ℕ) :
    nsumBefore nstream k ≤ nstream.sum := by
  rw [nsumBefore]
  conv_rhs => rw [← List.take_append_drop k nstream]
  rw [List.sum_append]
  have : 0 ≤ (nstream.drop k).sum := by
    apply List.sum_nonneg
    intro x hx
    exact hpos x (List.mem_of_mem_drop hx)
  omega

theorem nsumBefore_length (nstream : List ℤ) :
    nsumBefore nstream nstream.length = nstream.sum := by
  rw [nsumBefore, List.take_length]

theorem npMax_le (s : ℤ) (ss : List ℤ) :
    ∀ (t : ℤ), t ≤ s → t ≤ ss.foldl max s := by
  induction ss generalizing s with
  | nil => intro t ht; simpa using ht
  | cons a as ih =>
      intro t ht
      exact ih (max s a) t (le_trans ht (le_max_left s a))

theorem le_foldl_max (ss : List ℤ) : ∀ (s x : ℤ), x ∈ ss → x ≤ ss.foldl max s := by
  induction ss with
  | nil => intro s x hx; simp at hx
  | cons a as ih =>
      intro s x hx
      rcases List.mem_cons.mp hx with rfl | hx
      · exact npMax_le (max s x) as x (le_max_right s x)
      · exact ih (max s a) x hx

theorem le_npMax (s : ℤ) (ss : List ℤ) : ∀ x ∈ s :: ss, x ≤ npMax (s :: ss) := by
  intro x hx
  rw [npMax]
  rcases List.mem_cons.mp hx with rfl | hx
  · exact npMax_le x ss x le_rfl
  · exact le_foldl_max ss s x hx

theorem npMax_nonneg (s : ℤ) (ss : List ℤ) (hpos : ∀ x ∈ s :: ss, 0 ≤ x) :
    0 ≤ npMax (s :: ss) := by
  exact le_trans (hpos s (by simp)) (le_npMax s ss s (by simp))

theorem write_two_blocks {α : Type} (row batch w : List α) (nbodies cnt : ℕ)
    (hrow : row.length = nbodies) (hbatch : batch.length = cnt)
    (hw : nbodies + cnt ≤ w.length) :
    writeBlock (writeBlock w 0 row) nbodies batch
      = row ++ batch ++ w.drop (nbodies + cnt) := by
  subst hrow
  subst hbatch
  rw [writeBlock_zero row w (by omega)]
  rw [writeBlock_spec batch (row ++ w.drop row.length) row.length (by simp; omega)]
  rw [List.take_left, List.drop_append, List.drop_drop]

theorem seedTmp_spec (nbody_w : List (List W6)) (stream_w0 : List W6) (nbodies : ℕ)
    (nstream : List ℤ) (i : ℕ) (n : ℤ) (w : List W6)
    (hw : nbodies + (nstream.getD i 0).toNat ≤ w.length)
    (hrow : (nbody_w.getD i []).length = nbodies) :
    seedTmp nbody_w stream_w0 nbodies nstream i n w
      = (nbody_w.getD i []) ++ releaseBatch stream_w0 nstream i n
          ++ w.drop (nbodies + (nstream.getD i 0).toNat) := by
  rw [seedTmp, List.take_of_length_le (le_of_eq hrow)]
  exact write_two_blocks _ _ _ _ _ hrow (releaseBatch_length _ _ _ _) hw

theorem stepInputOf_length (nbody_w : List (List W6)) (stream_w0 : List W6)
    (nbodies : ℕ) (nstream : List ℤ) (i : ℕ)
    (hrow : (nbody_w.getD i []).length = nbodies) :
    (stepInputOf nbody_w stream_w0 nbodies nstream i).length
      = nbodies + (nstream.getD i 0).toNat := by
  rw [stepInputOf, List.length_append, releaseBatch_length,
    List.take_of_length_le (le_of_eq hrow), hrow]

theorem batchFinal_length (I : Integrator) (nbody_w : List (List W6))
    (stream_w0 : List W6) (stream_t1 : List ℚ) (t2 dt0 : ℚ) (nbodies : ℕ)
    (nstream : List ℤ) (i : ℕ)
    (hstep : ∀ ws a b d, (I.step ws a b d).length = ws.length)
    (hrow : (nbody_w.getD i []).length = nbodies) :
    (batchFinal I nbody_w stream_w0 stream_t1 t2 dt0 nbodies nstream i).length
      = (nstream.getD i 0).toNat := by
  rw [batchFinal, List.length_drop, hstep,
    stepInputOf_length nbody_w stream_w0 nbodies nstream i hrow]
  omega

theorem streamFinals_succ (I : Integrator) (nbody_w : List (List W6))
    (stream_w0 : List W6) (stream_t1 : List ℚ) (t2 dt0 : ℚ) (nbodies : ℕ)
    (nstream : List ℤ) (k : ℕ) :
    streamFinals I nbody_w stream_w0 stream_t1 t2 dt0 nbodies nstream (k + 1)
      = streamFinals I nbody_w stream_w0 stream_t1 t2 dt0 nbodies nstream k
          ++ batchFinal I nbody_w stream_w0 stream_t1 t2 dt0 nbodies nstream k := by
  rw [streamFinals, streamFinals, List.range_succ, List.flatMap_append]
  simp

theorem streamFinals_length (I : Integrator) (nbody_w : List (List W6))
    (stream_w0 : List W6) (stream_t1 : List ℚ) (t2 dt0 : ℚ) (nbodies : ℕ)
    (nstream : List ℤ)
    (hstep : ∀ ws a b d, (I.step ws a b d).length = ws.length)
    (hpos : ∀ x ∈ nstream, 0 ≤ x)
    (hrow : ∀ i, i < nstream.length → (nbody_w.getD i []).length = nbodies) :
    ∀ k, k ≤ nstream.length →
      (streamFinals I nbody_w stream_w0 stream_t1 t2 dt0 nbodies nstream k).length
        = (nsumBefore nstream k).toNat := by
  intro k
  induction k with
  | zero => intro _; simp [streamFinals, nsumBefore]
  | succ k ih =>
      intro hk
      rw [streamFinals_succ, List.length_append, ih (by omega),
        batchFinal_length I nbody_w stream_w0 stream_t1 t2 dt0 nbodies nstream k
          hstep (hrow k (by omega)),
        nsumBefore_succ nstream k (by omega),
        Int.toNat_add (nsumBefore_nonneg nstream hpos k)
          (hpos _ (getD_mem_of_lt nstream k (by omega)))]

theorem loopStateAt_succ (I : Integrator) (nbody_w : List (List W6))
    (stream_w0 : List W6) (stream_t1 : List ℚ) (t2 dt0 : ℚ) (nbodies : ℕ)
    (nstream : List ℤ) (w0 wf0 : List W6) (k : ℕ) :
    loopStateAt I nbody_w stream_w0 stream_t1 t2 dt0 nbodies nstream w0 wf0 (k + 1)
      = mockstreamIter I nbody_w stream_w0 stream_t1 t2 dt0 nbodies nstream
          (loopStateAt I nbody_w stream_w0 stream_t1 t2 dt0 nbodies nstream w0 wf0 k)
          k := by
  rw [loopStateAt, loopStateAt, List.range_succ, List.foldl_append,
    List.foldl_cons, List.foldl_nil]

theorem mockstreamIter_n (I : Integrator) (nbody_w : List (List W6))
    (stream_w0 : List W6) (stream_t1 : List ℚ) (t2 dt0 : ℚ) (nbodies : ℕ)
    (nstream : List ℤ) (st : LoopState) (i : ℕ) :
    (mockstreamIter I nbody_w stream_w0 stream_t1 t2 dt0 nbodies nstream st i).n
      = st.n + nstream.getD i 0 := rfl

theorem mockstreamIter_w_tmp (I : Integrator) (nbody_w : List (List W6))
    (stream_w0 : List W6) (stream_t1 : List ℚ) (t2 dt0 : ℚ) (nbodies : ℕ)
    (nstream : List ℤ) (st : LoopState) (i : ℕ) :
    (mockstreamIter I nbody_w stream_w0 stream_t1 t2 dt0 nbodies nstream st i).w_tmp
      = I.step ((seedTmp nbody_w stream_w0 nbodies nstream i st.n st.w_tmp).take
            (norbitsAt nbodies nstream i)) (stream_t1.getD i 0) t2 dt0
          ++ (seedTmp nbody_w stream_w0 nbodies nstream i st.n st.w_tmp).drop
            (norbitsAt nbodies nstream i) := rfl

theorem mockstreamIter_w_final (I : Integrator) (nbody_w : List (List W6))
    (stream_w0 : List W6) (stream_t1 : List ℚ) (t2 dt0 : ℚ) (nbodies : ℕ)
    (nstream : List ℤ) (st : LoopState) (i : ℕ) :
    (mockstreamIter I nbody_w stream_w0 stream_t1 t2 dt0 nbodies nstream st i).w_final
      = writeBlock st.w_final ((nbodies : ℤ) + st.n).toNat
          (((I.step ((seedTmp nbody_w stream_w0 nbodies nstream i st.n st.w_tmp).take
                (norbitsAt nbodies nstream i)) (stream_t1.getD i 0) t2 dt0
              ++ (seedTmp nbody_w stream_w0 nbodies nstream i st.n st.w_tmp).drop
                (norbitsAt nbodies nstream i)).drop nbodies).take
            (nstream.getD i 0).toNat) := rfl

theorem mockstream_loop_invariant (I : Integrator) (nbody_w : List (List W6))
    (stream_w0 : List W6) (stream_t1 : List ℚ) (t2 dt0 : ℚ) (nbodies : ℕ)
    (nstream : List ℤ) (maxn : ℕ) (w0 wf0 : List W6)
    (hstep : ∀ ws a b d, (I.step ws a b d).length = ws.length)
    (hpos : ∀ x ∈ nstream, 0 ≤ x)
    (hmax : ∀ x ∈ nstream, x ≤ (maxn : ℤ))
    (hrow : ∀ i, i < nstream.length → (nbody_w.getD i []).length = nbodies)
    (hw0 : w0.length = nbodies + maxn)
    (hwf0 : wf0 = List.replicate (nbodies + (nstream.sum).toNat) (default : W6)) :
    ∀ k, k ≤ nstream.length →
      (loopStateAt I nbody_w stream_w0 stream_t1 t2 dt0 nbodies nstream w0 wf0 k).n
          = nsumBefore nstream k
      ∧ (loopStateAt I nbody_w stream_w0 stream_t1 t2 dt0 nbodies nstream w0 wf0
            k).w_tmp.length = nbodies + maxn
      ∧ (loopStateAt I nbody_w stream_w0 stream_t1 t2 dt0 nbodies nstream w0 wf0
            k).w_final
          = List.replicate nbodies (default : W6)
              ++ streamFinals I nbody_w stream_w0 stream_t1 t2 dt0 nbodies nstream k
              ++ List.replicate ((nstream.sum).toNat - (nsumBefore nstream k).toNat)
                  (default : W6)
      ∧ (∀ j, k = j + 1 →
          (loopStateAt I nbody_w stream_w0 stream_t1 t2 dt0 nbodies nstream w0 wf0
              k).w_tmp.take nbodies
            = (I.step (stepInputOf nbody_w stream_w0 nbodies nstream j)
                (stream_t1.getD j 0) t2 dt0).take nbodies) := by
  intro k
  induction k with
  | zero =>
      intro _
      refine ⟨by simp [loopStateAt, nsumBefore], by simpa [loopStateAt] using hw0, ?_, ?_⟩
      · simp only [loopStateAt, List.range_zero, List.foldl_nil]
        have h0 : streamFinals I nbody_w stream_w0 stream_t1 t2 dt0 nbodies nstream 0
            = [] := rfl
        have h1 : nsumBefore nstream 0 = 0 := rfl
        rw [hwf0, List.replicate_add, h0, h1]
        simp
      · intro j hj
        exact absurd hj (by omega)
  | succ k ih =>
      intro hk1
      have hk : k < nstream.length := by omega
      obtain ⟨ihn, ihlen, ihfin, _⟩ := ih (by omega)
      have hmem := getD_mem_of_lt nstream k hk
      have hc0 : 0 ≤ nstream.getD k 0 := hpos _ hmem
      have hcm : nstream.getD k 0 ≤ (maxn : ℤ) := hmax _ hmem
      have hcn : (nstream.getD k 0).toNat ≤ maxn := by omega
      set st := loopStateAt I nbody_w stream_w0 stream_t1 t2 dt0 nbodies nstream w0 wf0 k
        with hstdef
      have hlrow : (nbody_w.getD k []).length = nbodies := hrow k hk
      have hlbatch := releaseBatch_length stream_w0 nstream k st.n
      have hw1 := seedTmp_spec nbody_w stream_w0 nbodies nstream k st.n st.w_tmp
        (by rw [ihlen]; omega) hlrow
      have hnor := norbitsAt_eq nbodies nstream k hc0
      have hABlen : ((nbody_w.getD k []) ++ releaseBatch stream_w0 nstream k st.n).length
          = nbodies + (nstream.getD k 0).toNat := by
        rw [List.length_append, hlrow, hlbatch]
      have htake : (seedTmp nbody_w stream_w0 nbodies nstream k st.n st.w_tmp).take
            (norbitsAt nbodies nstream k)
          = (nbody_w.getD k []) ++ releaseBatch stream_w0 nstream k st.n := by
        rw [hw1, hnor, List.take_left' hABlen]
      have hstin : (nbody_w.getD k []) ++ releaseBatch stream_w0 nstream k st.n
          = stepInputOf nbody_w stream_w0 nbodies nstream k := by
        rw [stepInputOf, List.take_of_length_le (le_of_eq hlrow), ihn]
      have hdrop : (seedTmp nbody_w stream_w0 nbodies nstream k st.n st.w_tmp).drop
            (norbitsAt nbodies nstream k)
          = st.w_tmp.drop (nbodies + (nstream.getD k 0).toNat) := by
        rw [hw1, hnor, List.drop_left' hABlen]
      have hal : (I.step (stepInputOf nbody_w stream_w0 nbodies nstream k)
            (stream_t1.getD k 0) t2 dt0).length
          = nbodies + (nstream.getD k 0).toNat := by
        rw [hstep, stepInputOf_length nbody_w stream_w0 nbodies nstream k hlrow]
      have hwtmp : (mockstreamIter I nbody_w stream_w0 stream_t1 t2 dt0 nbodies
            nstream st k).w_tmp
          = I.step (stepInputOf nbody_w stream_w0 nbodies nstream k)
              (stream_t1.getD k 0) t2 dt0
              ++ st.w_tmp.drop (nbodies + (nstream.getD k 0).toNat) := by
        rw [mockstreamIter_w_tmp, htake, hstin, hdrop]
      have houtB : ((I.step (stepInputOf nbody_w stream_w0 nbodies nstream k)
              (stream_t1.getD k 0) t2 dt0
            ++ st.w_tmp.drop (nbodies + (nstream.getD k 0).toNat)).drop nbodies).take
            (nstream.getD k 0).toNat
          = batchFinal I nbody_w stream_w0 stream_t1 t2 dt0 nbodies nstream k := by
        rw [List.drop_append_of_le_length (by rw [hal]; omega), batchFinal]
        rw [List.take_left' (by rw [List.length_drop, hal]; omega)]
      have hoff : ((nbodies : ℤ) + st.n).toNat = nbodies + (nsumBefore nstream k).toNat := by
        rw [ihn, Int.toNat_add (by positivity) (nsumBefore_nonneg nstream hpos k),
          Int.toNat_natCast]
      have hBlen := streamFinals_length I nbody_w stream_w0 stream_t1 t2 dt0 nbodies
        nstream hstep hpos hrow k (by omega)
      have hbatchlen := batchFinal_length I nbody_w stream_w0 stream_t1 t2 dt0 nbodies
        nstream k hstep hlrow
      have hsum_succ := nsumBefore_succ nstream k hk
      have hs0 := nsumBefore_nonneg nstream hpos k
      have hsle := nsumBefore_le_sum nstream hpos (k + 1)
      have hssum : 0 ≤ nstream.sum := List.sum_nonneg hpos
      have hABl : (List.replicate nbodies (default : W6)
            ++ streamFinals I nbody_w stream_w0 stream_t1 t2 dt0 nbodies nstream k).length
          = nbodies + (nsumBefore nstream k).toNat := by
        rw [List.length_append, List.length_replicate, hBlen]
      rw [loopStateAt_succ]
      refine ⟨?_, ?_, ?_, ?_⟩
      · rw [mockstreamIter_n, ihn, hsum_succ]
      · rw [hwtmp, List.length_append, hal, List.length_drop, ihlen]
        omega
      · rw [mockstreamIter_w_final, htake, hstin, hdrop, houtB, ihfin, hoff]
        rw [writeBlock_spec _ _ _ (by
          rw [List.length_append, hABl, List.length_replicate, hbatchlen]
          omega)]
        rw [hbatchlen, ← hABl, List.take_left, List.drop_append, List.drop_replicate]
        have harith : (nstream.sum.toNat - (nsumBefore nstream k).toNat)
              - (nstream.getD k 0).toNat
            = nstream.sum.toNat - (nsumBefore nstream (k + 1)).toNat := by
          omega
        rw [harith, streamFinals_succ, ← List.append_assoc]
      · intro j hj
        have hjk : j = k := by omega
        subst hjk
        rw [hwtmp, List.take_append_of_le_length (by rw [hal]; omega)]

theorem mockstream_output (I : Integrator) (nbody_w0 : List W6) (time : List ℚ)
    (stream_w0 : List W6) (stream_t1 : List ℚ) (nstream : List ℤ) (sig : ℕ → Bool)
    (hstep : ∀ ws a b d, (I.step ws a b d).length = ws.length)
    (hpos : ∀ x ∈ nstream, 0 ≤ x)
    (hlen : nstream.length = time.length)
    (h1 : 1 ≤ time.length)
    (hsig : ∀ i, sig i = false)
    (hrow : ∀ i, i < nstream.length →
      ((I.helperSaveAll nbody_w0 time).getD i []).length = nbody_w0.length) :
    mockstream_dop853 I nbody_w0 time stream_w0 stream_t1 nstream sig
      = .ok ((I.step
            (stepInputOf (I.helperSaveAll nbody_w0 time) stream_w0 nbody_w0.length
              nstream (time.length - 1))
            (stream_t1.getD (time.length - 1) 0)
            (time.getD (time.length - 1) 0)
            (time.getD 1 0 - time.getD 0 0)).take nbody_w0.length
          ++ streamFinals I (I.helperSaveAll nbody_w0 time) stream_w0 stream_t1
              (time.getD (time.length - 1) 0) (time.getD 1 0 - time.getD 0 0)
              nbody_w0.length nstream time.length) := by
  have hne : nstream ≠ [] := by
    intro h
    rw [h] at hlen
    simp at hlen
    omega
  obtain ⟨s, ss, rfl⟩ : ∃ s ss, nstream = s :: ss := by
    cases nstream with
    | nil => exact absurd rfl hne
    | cons s ss => exact ⟨s, ss, rfl⟩
  have hnpmax : 0 ≤ npMax (s :: ss) := npMax_nonneg s ss hpos
  have hsum : 0 ≤ (s :: ss).sum := List.sum_nonneg hpos
  have hguard : ¬(((nbody_w0.length : ℤ) + npMax (s :: ss) < 0)
      ∨ ((nbody_w0.length : ℤ) + (s :: ss).sum < 0)) := by
    push_neg
    omega
  rw [mockstream_dop853, if_neg hne, if_neg hguard]
  simp only []
  rw [streamLoopGo_ok _ _ _ _ (fun i _ => hsig i)]
  have hfold : (List.range time.length).foldl
        (mockstreamIter I (I.helperSaveAll nbody_w0 time) stream_w0 stream_t1
          (time.getD (time.length - 1) 0) (time.getD 1 0 - time.getD 0 0)
          nbody_w0.length (s :: ss))
        ⟨List.replicate ((nbody_w0.length : ℤ) + npMax (s :: ss)).toNat default,
          List.replicate ((nbody_w0.length : ℤ) + (s :: ss).sum).toNat default, 0⟩
      = loopStateAt I (I.helperSaveAll nbody_w0 time) stream_w0 stream_t1
          (time.getD (time.length - 1) 0) (time.getD 1 0 - time.getD 0 0)
          nbody_w0.length (s :: ss)
          (List.replicate ((nbody_w0.length : ℤ) + npMax (s :: ss)).toNat default)
          (List.replicate ((nbody_w0.length : ℤ) + (s :: ss).sum).toNat default)
          time.length := rfl
  rw [hfold]
  have hinv := mockstream_loop_invariant I (I.helperSaveAll nbody_w0 time) stream_w0
    stream_t1 (time.getD (time.length - 1) 0) (time.getD 1 0 - time.getD 0 0)
    nbody_w0.length (s :: ss) (npMax (s :: ss)).toNat
    (List.replicate ((nbody_w0.length : ℤ) + npMax (s :: ss)).toNat default)
    (List.replicate ((nbody_w0.length : ℤ) + (s :: ss).sum).toNat default)
    hstep hpos
    (by
      intro x hx
      rw [Int.toNat_of_nonneg hnpmax]
      exact le_npMax s ss x hx)
    hrow
    (by rw [List.length_replicate, Int.toNat_add (by positivity) hnpmax,
      Int.toNat_natCast])
    (by rw [Int.toNat_add (by positivity) hsum, Int.toNat_natCast])
    time.length (by omega)
  obtain ⟨hn, hlen2, hfin, htk⟩ := hinv
  simp only [Except.map]
  congr 1
  rw [htk (time.length - 1) (by omega)]
  rw [hfin]
  have hj : time.length - 1 < (s :: ss).length := by omega
  have hcj : 0 ≤ (s :: ss).getD (time.length - 1) 0 :=
    hpos _ (getD_mem_of_lt _ _ hj)
  have hblk : ((I.step
        (stepInputOf (I.helperSaveAll nbody_w0 time) stream_w0 nbody_w0.length
          (s :: ss) (time.length - 1))
        (stream_t1.getD (time.length - 1) 0) (time.getD (time.length - 1) 0)
        (time.getD 1 0 - time.getD 0 0)).take nbody_w0.length).length
      = nbody_w0.length := by
    rw [List.length_take, hstep,
      stepInputOf_length _ _ _ _ _ (hrow (time.length - 1) hj)]
    omega
  rw [writeBlock_zero _ _ (by
    rw [hblk, List.length_append, List.length_append, List.length_replicate]
    omega)]
  rw [hblk, List.append_assoc, List.drop_left' (List.length_replicate _ _)]
  have hC : (s :: ss).sum.toNat - (nsumBefore (s :: ss) time.length).toNat = 0 := by
    rw [← hlen, nsumBefore_length]
    omega
  rw [hC, List.replicate_zero, List.append_nil]

theorem range_split_at (n c : ℕ) (hc : c < n) :
    List.range n = List.range c ++ c :: List.range' (c + 1) (n - (c + 1)) := by
  rw [List.range_eq_range', List.range_eq_range']
  have h1 : List.range' 0 c ++ List.range' (0 + c) (n - c) = List.range' 0 (n - c + c) :=
    List.range'_append_1 0 c (n - c)
  have h2 : n - c + c = n := by omega
  rw [h2] at h1
  rw [← h1]
  congr 1
  have h3 : n - c = (n - (c + 1)) + 1 := by omega
  rw [Nat.zero_add, h3, List.range'_succ]

theorem mockstream_isOk (I : Integrator) (nbody_w0 : List W6) (time : List ℚ)
    (stream_w0 : List W6) (stream_t1 : List ℚ) (nstream : List ℤ) (sig : ℕ → Bool)
    (hne : nstream ≠ [])
    (hmaxn : 0 ≤ (nbody_w0.length : ℤ) + npMax nstream)
    (hsumn : 0 ≤ (nbody_w0.length : ℤ) + nstream.sum)
    (hsig : ∀ i, sig i = false) :
    isOkB (mockstream_dop853 I nbody_w0 time stream_w0 stream_t1 nstream sig)
      = true := by
  rw [mockstream_dop853, if_neg hne, if_neg (by push_neg; omega)]
  simp only []
  rw [streamLoopGo_ok _ _ _ _ (fun i _ => hsig i)]
  rfl

theorem mockstream_cancelled (I : Integrator) (nbody_w0 : List W6) (time : List ℚ)
    (stream_w0 : List W6) (stream_t1 : List ℚ) (nstream : List ℤ) (sig : ℕ → Bool)
    (hne : nstream ≠ [])
    (hmaxn : 0 ≤ (nbody_w0.length : ℤ) + npMax nstream)
    (hsumn : 0 ≤ (nbody_w0.length : ℤ) + nstream.sum)
    (c : ℕ) (hc : c < time.length)
    (hbefore : ∀ j < c, sig j = false) (hatc : sig c = true) :
    mockstream_dop853 I nbody_w0 time stream_w0 stream_t1 nstream sig
      = .error .keyboardInterrupt := by
  rw [mockstream_dop853, if_neg hne, if_neg (by push_neg; omega)]
  simp only []
  rw [range_split_at time.length c hc]
  rw [streamLoopGo_err _ _ _ _ _ _
    (fun j hj => hbefore j (List.mem_range.mp hj)) hatc]
  rfl

theorem mockstream_sig_congr (I : Integrator) (nbody_w0 : List W6) (time : List ℚ)
    (stream_w0 : List W6) (stream_t1 : List ℚ) (nstream : List ℤ)
    (sig sig' : ℕ → Bool)
    (hagree : ∀ i < time.length, sig i = sig' i) :
    mockstream_dop853 I nbody_w0 time stream_w0 stream_t1 nstream sig
      = mockstream_dop853 I nbody_w0 time stream_w0 stream_t1 nstream sig' := by
  rw [mockstream_dop853, mockstream_dop853]
  by_cases hne : nstream = []
  · rw [if_pos hne, if_pos hne]
  · rw [if_neg hne, if_neg hne]
    by_cases hdim : ((nbody_w0.length : ℤ) + npMax nstream < 0
        ∨ (nbody_w0.length : ℤ) + nstream.sum < 0)
    · rw [if_pos hdim, if_pos hdim]
    · rw [if_neg hdim, if_neg hdim]
      simp only []
      rw [streamLoopGo_congr _ _ _ _ _
        (fun i hi => hagree i (List.mem_range.mp hi))]

theorem compValueHook_sum (cs : List CPotInstance) (q : V3) :
    compValueHook cs q = (cs.map (fun c => c.pval q)).sum := by
  rw [compValueHook]
  rw [foldl_add_map (fun c => c.pval q) cs 0, zero_add]

theorem compGradHook_sum (cs : List CPotInstance) (q : V3)
    (hg : ∀ c ∈ cs, ∀ b, c.pgrad q b = b + c.pgrad q 0) (b : V3) :
    compGradHook cs q b = b + (cs.map (fun c => c.pgrad q 0)).sum := by
  rw [compGradHook]
  exact foldl_acc_hook (fun c b => c.pgrad q b) cs hg b

theorem compHessHook_sum (cs : List CPotInstance) (q : V3)
    (hh : ∀ c ∈ cs, ∀ b, c.phess q b = b + c.phess q 0) (b : M3) :
    compHessHook cs q b = b + (cs.map (fun c => c.phess q 0)).sum := by
  rw [compHessHook]
  exact foldl_acc_hook (fun c b => c.phess q b) cs hh b

theorem compMassHook_sum (cs : List CPotInstance) (q : V3) (r G : ℚ) :
    compMassHook cs q r G = (cs.map (fun c => c.pmass q r G)).sum := by
  rw [compMassHook]
  rw [foldl_add_map (fun c => c.pmass q r G) cs 0, zero_add]

theorem more_init_fold {α : Type} [Inhabited α] (instances : List α)
    (hcap : instances.length ≤ OBJ_LIST_CAPACITY) :
    ∀ k, k ≤ instances.length →
      ((List.range k).foldl
          (fun t i => objTableWrite t i (instances.getD i default))
          (⟨fun _ => none, []⟩ : ObjTable α)).oob = []
      ∧ ∀ i, ((List.range k).foldl
            (fun t i => objTableWrite t i (instances.getD i default))
            (⟨fun _ => none, []⟩ : ObjTable α)).slot i
          = if i < k then some (instances.getD i default) else none := by
  intro k
  induction k with
  | zero => intro _; exact ⟨rfl, fun i => by simp⟩
  | succ k ih =>
      intro hk
      obtain ⟨ihoob, ihslot⟩ := ih (by omega)
      rw [List.range_succ, List.foldl_append, List.foldl_cons, List.foldl_nil]
      rw [objTableWrite, if_pos (by
        rw [OBJ_LIST_CAPACITY]
        rw [OBJ_LIST_CAPACITY] at hcap
        omega)]
      refine ⟨ihoob, ?_⟩
      intro i
      simp only []
      by_cases hik : i = k
      · subst hik
        simp
      · rw [if_neg hik, ihslot i]
        by_cases hlt : i < k
        · rw [if_pos hlt, if_pos (by omega)]
        · rw [if_neg hlt, if_neg (by omega)]

/-! ## Claim theorems -/

/-- C4, counterexample.  The claim states the enclosed-mass estimator uses a
fractional step `h = 0.01·r` with both evaluations along the radial unit
vector through the query point.  At `Φ(v) = v₀`, `q = (2,0,0)` (so `r = 2`,
since `2·2 = 2²+0²+0²`), `G = 1`, the source computes 800 while the claim's
formula gives 4: the source's step is the absolute `h = 0.01` and its second
evaluation point lies on the opposite ray. -/
theorem c4_mass_formula_counterexample :
    (2 : ℚ) * 2 = (2 : ℚ) ^ 2 + 0 ^ 2 + 0 ^ 2
    ∧ mass_enclosed_hook (fun v => v 0) (fun j => if j = 0 then 2 else 0) 2 1 = 800
    ∧ specMassEnclosed (fun v => v 0) (fun j => if j = 0 then 2 else 0) 2 1 = 4
    ∧ mass_enclosed_hook (fun v => v 0) (fun j => if j = 0 then 2 else 0) 2 1
        ≠ specMassEnclosed (fun v => v 0) (fun j => if j = 0 then 2 else 0) 2 1 := by
  refine ⟨by norm_num, by norm_num [mass_enclosed_hook],
    by norm_num [specMassEnclosed], by norm_num [mass_enclosed_hook, specMassEnclosed]⟩

/-- C4, amended: for a query point `q` at radius `r > 0` (`r² = |q|²`),
`_mass_enclosed` returns `|r² · (Φ(q + h·r̂) − Φ(−(q − h·r̂))) / (2h) / G|`
with the fixed ABSOLUTE step `h = 0.01` (not 1% of the radius): the first
evaluation point is the positive multiple `(r + 0.01)/r` of `q` (radius
`r + 0.01` along the radial unit vector), while the second is the negative
multiple `−(r − 0.01)/r` of `q` — the point antipodal to the query direction,
at squared radius `(r − 0.01)²`, not a point on the ray through `q`. -/
theorem c4_mass_formula_amended (value_ : V3 → ℚ) (q : V3) (r G : ℚ)
    (hr : r * r = q 0 ^ 2 + q 1 ^ 2 + q 2 ^ 2) (hrpos : 0 < r) :
    mass_enclosed_hook value_ q r G
      = |r * r * (value_ (fun j => q j + 1/100 * (q j / r))
          - value_ (fun j => -(q j - 1/100 * (q j / r)))) / (2 * (1/100)) / G|
    ∧ (∀ j, (1:ℚ)/100 * q j / r + q j = (r + 1/100) * (q j / r))
    ∧ (∀ j, (1:ℚ)/100 * q j / r - q j = -((r - 1/100) * (q j / r)))
    ∧ ((1:ℚ)/100 * q 0 / r + q 0) ^ 2 + (1/100 * q 1 / r + q 1) ^ 2
        + (1/100 * q 2 / r + q 2) ^ 2 = (r + 1/100) ^ 2
    ∧ ((1:ℚ)/100 * q 0 / r - q 0) ^ 2 + (1/100 * q 1 / r - q 1) ^ 2
        + (1/100 * q 2 / r - q 2) ^ 2 = (r - 1/100) ^ 2 := by
  have hne : r ≠ 0 := ne_of_gt hrpos
  have he1 : ∀ j : Fin 3, (1:ℚ)/100 * q j / r + q j = (r + 1/100) * (q j / r) := by
    intro j; field_simp; ring
  have he2 : ∀ j : Fin 3, (1:ℚ)/100 * q j / r - q j = -((r - 1/100) * (q j / r)) := by
    intro j; field_simp; ring
  have hq : (q 0 / r) ^ 2 + (q 1 / r) ^ 2 + (q 2 / r) ^ 2 = 1 := by
    rw [div_pow, div_pow, div_pow, div_add_div_same, div_add_div_same, ← hr]
    have hrr : r * r = r ^ 2 := by ring
    rw [hrr]
    exact div_self (pow_ne_zero 2 hne)
  refine ⟨?_, he1, he2, ?_, ?_⟩
  · simp only [mass_enclosed_hook]
    have h1 : (fun j => (1:ℚ)/100 * q j / r + q j)
        = fun j => q j + 1/100 * (q j / r) := by
      funext j; ring
    have h2 : (fun j => (1:ℚ)/100 * q j / r - q j)
        = fun j => -(q j - 1/100 * (q j / r)) := by
      funext j; ring
    rw [h1, h2]
    congr 1
    ring
  · rw [he1 0, he1 1, he1 2]
    calc ((r + 1/100) * (q 0 / r)) ^ 2 + ((r + 1/100) * (q 1 / r)) ^ 2
          + ((r + 1/100) * (q 2 / r)) ^ 2
        = (r + 1/100) ^ 2 * ((q 0 / r) ^ 2 + (q 1 / r) ^ 2 + (q 2 / r) ^ 2) := by
          ring
      _ = (r + 1/100) ^ 2 := by rw [hq]; ring
  · rw [he2 0, he2 1, he2 2]
    calc (-((r - 1/100) * (q 0 / r))) ^ 2 + (-((r - 1/100) * (q 1 / r))) ^ 2
          + (-((r - 1/100) * (q 2 / r))) ^ 2
        = (r - 1/100) ^ 2 * ((q 0 / r) ^ 2 + (q 1 / r) ^ 2 + (q 2 / r) ^ 2) := by
          ring
      _ = (r - 1/100) ^ 2 := by rw [hq]; ring

/-- C4, witness for the amended theorem at `Φ(v) = v₀`, `q = (2,0,0)`,
`r = 2`, `G = 1`. -/
theorem c4_mass_formula_amended_witness :
    ((2:ℚ) * 2 = (fun j : Fin 3 => if j = 0 then (2:ℚ) else 0) 0 ^ 2
        + (fun j : Fin 3 => if j = 0 then (2:ℚ) else 0) 1 ^ 2
        + (fun j : Fin 3 => if j = 0 then (2:ℚ) else 0) 2 ^ 2)
    ∧ (0:ℚ) < 2
    ∧ mass_enclosed_hook (fun v => v 0) (fun j => if j = 0 then 2 else 0) 2 1
        = |(2:ℚ) * 2 * ((fun v : V3 => v 0) (fun j =>
              (fun j : Fin 3 => if j = 0 then (2:ℚ) else 0) j
                + 1/100 * ((fun j : Fin 3 => if j = 0 then (2:ℚ) else 0) j / 2))
            - (fun v : V3 => v 0) (fun j =>
              -((fun j : Fin 3 => if j = 0 then (2:ℚ) else 0) j
                - 1/100 * ((fun j : Fin 3 => if j = 0 then (2:ℚ) else 0) j / 2))))
            / (2 * (1/100)) / 1| := by
  refine ⟨by norm_num [Fin.ext_iff], by norm_num, ?_⟩
  exact (c4_mass_formula_amended (fun v => v 0)
    (fun j => if j = 0 then 2 else 0) 2 1 (by norm_num [Fin.ext_iff]) (by norm_num)).1

theorem fdiv_fin_zero_not_finite (X : FpVal) :
    (fabsFp (fdiv (fdiv X (.fin 0)) (fmul (.fin 2) (.fin (1/100))))).isFinite
      = false := by
  rcases X with x | _ | s
  · by_cases hx : x = 0 <;> norm_num [fdiv, fmul, fabsFp, FpVal.isFinite, hx]
  · norm_num [fdiv, fmul, fabsFp, FpVal.isFinite]
  · norm_num [fdiv, fmul, fabsFp, FpVal.isFinite]

/-- C10: `_mass_enclosed` divides by the query radius `r` and by `G` with no
guard and raises nothing (the embedding is a total function with no error
outcome, matching the `nogil` C routine).  At the origin, `r = sqrt(0) = 0`
exactly, the epsilon components are `0.01·(0/0) ± 0 = NaN`, and — for any
potential whose value propagates a NaN position (hypothesis `hstrict`) — the
result is NaN, hence non-finite, for every `G`.  Moreover for `G = 0` the
result is non-finite for every potential, query point and radius. -/
theorem c10_mass_enclosed_origin_nan (value_ : (Fin 3 → FpVal) → FpVal)
    (G : FpVal)
    (hstrict : ∀ v : Fin 3 → FpVal, v 0 = .nan → value_ v = .nan) :
    mass_enclosed_fp value_ (fun _ => .fin 0) (.fin 0) G = .nan
    ∧ (mass_enclosed_fp value_ (fun _ => .fin 0) (.fin 0) G).isFinite = false
    ∧ (∀ (va : (Fin 3 → FpVal) → FpVal) (qa : Fin 3 → FpVal) (ra : FpVal),
        (mass_enclosed_fp va qa ra (.fin 0)).isFinite = false) := by
  have hmain : mass_enclosed_fp value_ (fun _ => .fin 0) (.fin 0) G = .nan := by
    rw [mass_enclosed_fp]
    have hv1 := hstrict
      (fun j => fadd (fmul (FpVal.fin (1/100))
        (fdiv ((fun _ : Fin 3 => FpVal.fin 0) j) (FpVal.fin 0)))
        ((fun _ : Fin 3 => FpVal.fin 0) j))
      (by simp [fdiv, fmul, fadd])
    have hv2 := hstrict
      (fun j => fsub (fmul (FpVal.fin (1/100))
        (fdiv ((fun _ : Fin 3 => FpVal.fin 0) j) (FpVal.fin 0)))
        ((fun _ : Fin 3 => FpVal.fin 0) j))
      (by simp [fdiv, fmul, fsub, fadd, fneg])
    rw [hv1, hv2]
    cases G <;> simp [fsub, fadd, fneg, fmul, fdiv, fabsFp]
  refine ⟨hmain, by rw [hmain]; rfl, ?_⟩
  intro va qa ra
  exact fdiv_fin_zero_not_finite _

/-- C10, witness at `Φ(v) = v₀`, query at the origin, `G = 1`. -/
theorem c10_mass_enclosed_origin_nan_witness :
    (∀ v : Fin 3 → FpVal, v 0 = .nan → (fun v : Fin 3 → FpVal => v 0) v = .nan)
    ∧ mass_enclosed_fp (fun v => v 0) (fun _ => .fin 0) (.fin 0) (.fin 1)
        = .nan := by
  refine ⟨fun v h => h, ?_⟩
  exact (c10_mass_enclosed_origin_nan (fun v => v 0) (.fin 1) (fun v h => h)).1

/-- C3, counterexample.  The claim states that calling the public gradient on
a potential without a gradient implementation fails with a typed
`NotSupported` error and never silently returns a zero vector.  But every
`_CPotential`-derived instance exposes the `cpdef gradient` wrapper, whose
un-overridden private hook writes zeros: for a potential overriding only
`_value`, the public gradient call succeeds and returns a zero row — no
error of any kind is raised. -/
theorem c3_gradient_counterexample :
    CPotential_gradient (cinstanceOf (mkValueOnly (fun v => v 0)))
        [fun _ => 1] = .ok [(0 : V3)]
    ∧ (Except.ok [(0 : V3)] : Except PyExc (List V3))
        ≠ .error .notSupported := by
  refine ⟨rfl, ?_⟩
  intro h
  exact Except.noConfusion h

/-- C3, amended: on a `_CPotential`-derived instance that does not override
the private gradient (Hessian) hook, the public `gradient` (`hessian`)
silently returns an all-zero array with no error; only when the `c_instance`
object lacks the attribute entirely does the Python wrapper raise — and then
it raises a generic `ValueError` (converted from the caught
`AttributeError`), not a typed `NotSupported` error, which does not exist in
the code. -/
theorem c3_gradient_amended (v : V3 → ℚ) (Q : List V3) :
    CPotential_gradient (cinstanceOf (mkValueOnly v)) Q
        = .ok (Q.map (fun _ => (0 : V3)))
    ∧ CPotential_hessian (cinstanceOf (mkValueOnly v)) Q
        = .ok (Q.map (fun _ => (0 : M3)))
    ∧ (∀ c : CInstanceObj, c.gradient_attr = none →
        CPotential_gradient c Q
          = .error (.valueError
              "Potential C instance has no defined gradient function"))
    ∧ (∀ c : CInstanceObj, c.hessian_attr = none →
        CPotential_hessian c Q
          = .error (.valueError
              "Potential C instance has no defined Hessian function")) := by
  refine ⟨rfl, rfl, ?_, ?_⟩
  · intro c hc
    rw [CPotential_gradient, hc]
  · intro c hc
    rw [CPotential_hessian, hc]

/-- C3, witness: the amended behaviour at a one-row batch, both for a
value-only `_CPotential` instance (silent zeros) and for an object with no
gradient attribute (generic `ValueError`). -/
theorem c3_gradient_amended_witness :
    ((⟨some (fun q => q.map (fun _ => (0 : ℚ))), none, none⟩
        : CInstanceObj).gradient_attr = none)
    ∧ CPotential_gradient (cinstanceOf (mkValueOnly (fun v => v 0)))
        [fun _ => 1] = .ok (([fun _ => 1] : List V3).map (fun _ => (0 : V3)))
    ∧ CPotential_gradient
        (⟨some (fun q => q.map (fun _ => (0 : ℚ))), none, none⟩ : CInstanceObj)
        [fun _ => 1]
        = .error (.valueError
            "Potential C instance has no defined gradient function") := by
  refine ⟨rfl, (c3_gradient_amended (fun v => v 0) [fun _ => 1]).1, ?_⟩
  exact (c3_gradient_amended (fun v => v 0) [fun _ => 1]).2.2.1 _ rfl

/-- C5: for a `_CCompositePotential` with children `cs`, the value, gradient,
Hessian and enclosed-mass outputs are the elementwise sums of the children's
corresponding outputs, at every single row and over every batch, and for
`cs = []` all four outputs are zero.  The gradient/Hessian parts assume the
spec-modelled leaf-hook contract (hypotheses `hg`, `hh`): each child's
private hook accumulates its own contribution into the shared buffer row, as
`mkLeaf` does; this is what makes the composite's sequential dispatch loop a
sum.  (The value and mass parts need no hypothesis: the composite sums those
explicitly.) -/
theorem c5_composite_sums (cs : List CPotInstance)
    (hg : ∀ c ∈ cs, ∀ (q : V3) (b : V3), c.pgrad q b = b + c.pgrad q 0)
    (hh : ∀ c ∈ cs, ∀ (q : V3) (b : M3), c.phess q b = b + c.phess q 0) :
    (∀ q, (compInstance cs).pval q = (cs.map (fun c => c.pval q)).sum)
    ∧ (∀ q, (compInstance cs).pgrad q 0 = (cs.map (fun c => c.pgrad q 0)).sum)
    ∧ (∀ q, (compInstance cs).phess q 0 = (cs.map (fun c => c.phess q 0)).sum)
    ∧ (∀ q r G, (compInstance cs).pmass q r G
        = (cs.map (fun c => c.pmass q r G)).sum)
    ∧ (∀ Q, cpot_value (compInstance cs) Q
        = Q.map (fun q => (cs.map (fun c => c.pval q)).sum))
    ∧ (∀ Q, cpot_gradient (compInstance cs) Q
        = Q.map (fun q => (cs.map (fun c => c.pgrad q 0)).sum))
    ∧ (∀ Q, cpot_hessian (compInstance cs) Q
        = Q.map (fun q => (cs.map (fun c => c.phess q 0)).sum))
    ∧ (∀ Q rOf G, cpot_mass_enclosed (compInstance cs) Q rOf G
        = Q.map (fun q => (cs.map (fun c => c.pmass q (rOf q) G)).sum))
    ∧ (cs = [] → ∀ q r G, (compInstance cs).pval q = 0
        ∧ (compInstance cs).pgrad q 0 = 0
        ∧ (compInstance cs).phess q 0 = 0
        ∧ (compInstance cs).pmass q r G = 0) := by
  have hv : ∀ q, (compInstance cs).pval q = (cs.map (fun c => c.pval q)).sum :=
    fun q => compValueHook_sum cs q
  have hgr : ∀ q, (compInstance cs).pgrad q 0 = (cs.map (fun c => c.pgrad q 0)).sum := by
    intro q
    rw [show (compInstance cs).pgrad = compGradHook cs from rfl]
    rw [compGradHook_sum cs q (fun c hc => hg c hc q) 0, zero_add]
  have hhe : ∀ q, (compInstance cs).phess q 0 = (cs.map (fun c => c.phess q 0)).sum := by
    intro q
    rw [show (compInstance cs).phess = compHessHook cs from rfl]
    rw [compHessHook_sum cs q (fun c hc => hh c hc q) 0, zero_add]
  have hm : ∀ q r G, (compInstance cs).pmass q r G
      = (cs.map (fun c => c.pmass q r G)).sum :=
    fun q r G => compMassHook_sum cs q r G
  refine ⟨hv, hgr, hhe, hm, ?_, ?_, ?_, ?_, ?_⟩
  · intro Q
    rw [cpot_value]
    exact List.map_congr_left (fun q _ => hv q)
  · intro Q
    rw [cpot_gradient]
    exact List.map_congr_left (fun q _ => hgr q)
  · intro Q
    rw [cpot_hessian]
    exact List.map_congr_left (fun q _ => hhe q)
  · intro Q rOf G
    rw [cpot_mass_enclosed]
    exact List.map_congr_left (fun q _ => hm q (rOf q) G)
  · intro hnil q r G
    subst hnil
    exact ⟨rfl, rfl, rfl, rfl⟩

/-- C5, witness: two concrete accumulating leaves, the hook hypotheses
discharged, and the gradient-sum conclusion instantiated at a concrete row. -/
theorem c5_composite_sums_witness :
    (∀ c ∈ [mkLeaf (fun v => v 0) (fun v => v) (fun _ => 0),
        mkLeaf (fun v => v 1) (fun _ _ => 1) (fun _ _ _ => 2)],
      ∀ (q : V3) (b : V3), c.pgrad q b = b + c.pgrad q 0)
    ∧ (∀ c ∈ [mkLeaf (fun v => v 0) (fun v => v) (fun _ => 0),
        mkLeaf (fun v => v 1) (fun _ _ => 1) (fun _ _ _ => 2)],
      ∀ (q : V3) (b : M3), c.phess q b = b + c.phess q 0)
    ∧ (compInstance [mkLeaf (fun v => v 0) (fun v => v) (fun _ => 0),
          mkLeaf (fun v => v 1) (fun _ _ => 1) (fun _ _ _ => 2)]).pgrad
        (fun _ => 1) 0
      = (([mkLeaf (fun v => v 0) (fun v => v) (fun _ => 0),
          mkLeaf (fun v => v 1) (fun _ _ => 1) (fun _ _ _ => 2)]).map
          (fun c => c.pgrad (fun _ => 1) 0)).sum := by
  have hg : ∀ c ∈ [mkLeaf (fun v : V3 => v 0) (fun v => v) (fun _ => 0),
      mkLeaf (fun v : V3 => v 1) (fun _ _ => 1) (fun _ _ _ => 2)],
      ∀ (q : V3) (b : V3), c.pgrad q b = b + c.pgrad q 0 := by
    intro c hc q b
    rcases List.mem_cons.mp hc with rfl | hc
    · simp [mkLeaf]
    · rcases List.mem_cons.mp hc with rfl | hc
      · simp [mkLeaf]
      · simp at hc
  have hh : ∀ c ∈ [mkLeaf (fun v : V3 => v 0) (fun v => v) (fun _ => 0),
      mkLeaf (fun v : V3 => v 1) (fun _ _ => 1) (fun _ _ _ => 2)],
      ∀ (q : V3) (b : M3), c.phess q b = b + c.phess q 0 := by
    intro c hc q b
    rcases List.mem_cons.mp hc with rfl | hc
    · simp [mkLeaf]
    · rcases List.mem_cons.mp hc with rfl | hc
      · simp [mkLeaf]
      · simp at hc
  exact ⟨hg, hh, (c5_composite_sums _ hg hh).2.1 (fun _ => 1)⟩

/-- C8: `_CCompositePotential` stores its children in the statically sized
`obj_list` of capacity `OBJ_LIST_CAPACITY = 100` (there is no dynamically
sized collection).  Constructing a composite with at most 100 children makes
`_more_init` record every child at its own slot, and no write leaves the
100-slot capacity. -/
theorem c8_obj_list_capacity {α : Type} [Inhabited α] (instances : List α)
    (h : instances.length ≤ OBJ_LIST_CAPACITY) :
    OBJ_LIST_CAPACITY = 100
    ∧ (more_init instances).oob = []
    ∧ ∀ i, i < instances.length →
        (more_init instances).slot i = some (instances.getD i default) := by
  obtain ⟨hoob, hslot⟩ := more_init_fold instances h instances.length le_rfl
  refine ⟨rfl, ?_, ?_⟩
  · rw [more_init]
    exact hoob
  · intro i hi
    rw [more_init, hslot i, if_pos hi]

/-- C8, witness: a composite at the full capacity of 100 children. -/
theorem c8_obj_list_capacity_witness :
    (List.range 100).length ≤ OBJ_LIST_CAPACITY
    ∧ (more_init (List.range 100)).oob = []
    ∧ (more_init (List.range 100)).slot 99
        = some ((List.range 100).getD 99 default) := by
  have h : (List.range 100).length ≤ OBJ_LIST_CAPACITY := by
    simp [OBJ_LIST_CAPACITY]
  exact ⟨h, (c8_obj_list_capacity (List.range 100) h).2.1,
    (c8_obj_list_capacity (List.range 100) h).2.2 99 (by simp)⟩

/-- C9: the setup loops write exactly the indices
`0 .. nbodies + max_nstream - 1` of the statically sized 1024-slot
`c_particle_potentials` table, with no bounds check; every write stays below
`MAX_NBODY` precisely when `nbodies + max_nstream ≤ 1024`.  The driver never
checks this precondition: with no pending signals it returns a result — not
an error — even when the bound is violated. -/
theorem c9_potential_table_bound :
    (∀ nbodies maxn : ℕ,
      (particlePotentialWriteIdx nbodies maxn).length = nbodies + maxn
      ∧ ((∀ i ∈ particlePotentialWriteIdx nbodies maxn, i < MAX_NBODY)
          ↔ nbodies + maxn ≤ MAX_NBODY))
    ∧ (∀ (I : Integrator) (nbody_w0 : List W6) (time : List ℚ)
        (stream_w0 : List W6) (stream_t1 : List ℚ) (nstream : List ℤ)
        (sig : ℕ → Bool),
        nstream ≠ [] →
        0 ≤ (nbody_w0.length : ℤ) + npMax nstream →
        0 ≤ (nbody_w0.length : ℤ) + nstream.sum →
        (∀ i, sig i = false) →
        MAX_NBODY < nbody_w0.length + (npMax nstream).toNat →
        isOkB (mockstream_dop853 I nbody_w0 time stream_w0 stream_t1 nstream sig)
          = true) := by
  constructor
  · intro nbodies maxn
    constructor
    · rw [particlePotentialWriteIdx, List.length_append, List.length_range,
        List.length_range']
    · constructor
      · intro hin
        by_contra hgt
        push_neg at hgt
        have hmem : MAX_NBODY ∈ particlePotentialWriteIdx nbodies maxn := by
          rw [particlePotentialWriteIdx, List.mem_append, List.mem_range,
            List.mem_range'_1]
          omega
        exact absurd (hin _ hmem) (by omega)
      · intro hle i hi
        rw [particlePotentialWriteIdx, List.mem_append, List.mem_range,
          List.mem_range'_1] at hi
        omega
  · intro I nbody_w0 time stream_w0 stream_t1 nstream sig hne hmaxn hsumn hsig _
    exact mockstream_isOk I nbody_w0 time stream_w0 stream_t1 nstream sig
      hne hmaxn hsumn hsig

/-- C9, witness: 1025 massive bodies and no stream particles overflow the
1024-entry table, yet the driver still returns a result. -/
theorem c9_potential_table_bound_witness :
    (([0, 0] : List ℤ) ≠ [])
    ∧ 0 ≤ ((List.replicate 1025 (default : W6)).length : ℤ) + npMax [0, 0]
    ∧ 0 ≤ ((List.replicate 1025 (default : W6)).length : ℤ) + ([0, 0] : List ℤ).sum
    ∧ MAX_NBODY < (List.replicate 1025 (default : W6)).length + (npMax [0, 0]).toNat
    ∧ isOkB (mockstream_dop853 ⟨fun _ _ => [], fun ws _ _ _ => ws⟩
        (List.replicate 1025 default) [0, 1] [] [0, 0] [0, 0] (fun _ => false))
        = true := by
  refine ⟨by decide, by rw [List.length_replicate]; decide,
    by rw [List.length_replicate]; decide,
    by rw [List.length_replicate]; decide, ?_⟩
  exact c9_potential_table_bound.2 ⟨fun _ _ => [], fun ws _ _ _ => ws⟩
    (List.replicate 1025 default) [0, 1] [] [0, 0] [0, 0] (fun _ => false)
    (by decide) (by rw [List.length_replicate]; decide)
    (by rw [List.length_replicate]; decide)
    (fun i => rfl) (by rw [List.length_replicate]; decide)

/-- C7: cooperative cancellation.  (i) With the first pending interrupt at
poll `c < ntimes` (and inputs passing the numpy allocation checks), the
driver aborts with `KeyboardInterrupt` — the `PyErr_CheckSignals` poll that
ends iteration `c` fires after that iteration's release step completes.
(ii) The driver's outcome depends on the pending-signal flags only through
their values at the `ntimes` per-iteration polls: interruption is never
observed mid-step.  (iii) The cancellation outcome is a constructor distinct
from every data error (`valueError`), so callers can distinguish them. -/
theorem c7_cancellation (I : Integrator) (nbody_w0 : List W6) (time : List ℚ)
    (stream_w0 : List W6) (stream_t1 : List ℚ) (nstream : List ℤ)
    (sig sig' : ℕ → Bool) (c : ℕ)
    (hne : nstream ≠ [])
    (hmaxn : 0 ≤ (nbody_w0.length : ℤ) + npMax nstream)
    (hsumn : 0 ≤ (nbody_w0.length : ℤ) + nstream.sum)
    (hc : c < time.length)
    (hbefore : ∀ j < c, sig j = false) (hatc : sig c = true)
    (hagree : ∀ i < time.length, sig i = sig' i) :
    mockstream_dop853 I nbody_w0 time stream_w0 stream_t1 nstream sig
      = .error .keyboardInterrupt
    ∧ mockstream_dop853 I nbody_w0 time stream_w0 stream_t1 nstream sig
      = mockstream_dop853 I nbody_w0 time stream_w0 stream_t1 nstream sig'
    ∧ ∀ msg, (Except.error StreamExc.keyboardInterrupt
          : Except StreamExc (List W6))
        ≠ .error (.valueError msg) := by
  refine ⟨mockstream_cancelled I nbody_w0 time stream_w0 stream_t1 nstream sig
      hne hmaxn hsumn c hc hbefore hatc,
    mockstream_sig_congr I nbody_w0 time stream_w0 stream_t1 nstream sig sig'
      hagree, ?_⟩
  intro msg h
  injection h with h2
  exact StreamExc.noConfusion h2

/-- C7, witness: one massive body, two time steps, zero releases, an
interrupt pending at the first poll. -/
theorem c7_cancellation_witness :
    (([0, 0] : List ℤ) ≠ [])
    ∧ 0 ≤ (([fun _ => 10] : List W6).length : ℤ) + npMax [0, 0]
    ∧ 0 ≤ (([fun _ => 10] : List W6).length : ℤ) + ([0, 0] : List ℤ).sum
    ∧ (0 < ([(0 : ℚ), 1] : List ℚ).length)
    ∧ (∀ j < 0, (fun i => decide (i = 0)) j = false)
    ∧ (fun i => decide (i = 0)) 0 = true
    ∧ mockstream_dop853 ⟨fun _ _ => [[fun _ => 10], [fun _ => 10]],
          fun ws _ _ _ => ws⟩
        [fun _ => 10] [0, 1] [] [0, 0] [0, 0] (fun i => decide (i = 0))
      = .error .keyboardInterrupt := by
  refine ⟨by decide, by decide, by decide, by decide,
    fun j hj => absurd hj (by omega), rfl, ?_⟩
  exact (c7_cancellation ⟨fun _ _ => [[fun _ => 10], [fun _ => 10]],
      fun ws _ _ _ => ws⟩
    [fun _ => 10] [0, 1] [] [0, 0] [0, 0] (fun i => decide (i = 0))
    (fun i => decide (i = 0)) 0 (by decide) (by decide) (by decide) (by decide)
    (fun j hj => absurd hj (by omega)) rfl (fun i _ => rfl)).1

/-- C1, counterexample.  The claim states that the stepping call at time
step `i` advances the massive bodies plus ALL particles released at steps
`≤ i`, with earlier-released particles persisting in the working buffer.
Take one massive body, two time steps, `nstream = [1,1]`.  At `i = 1` the
claim's cumulative count (`specCumulativeOrbits`) is 3, but the driver's
`norbits` argument (`norbitsAt`) is 2; concretely, running iteration 0 with
a marking integrator and seeding iteration 1 on the resulting state, the
span handed to the stepping call is exactly `[body-state-at-step-1,
particle-released-at-step-1]` — the particle released at step 0 (initial
state `fun _ => 20`) is not in it in any form. -/
theorem c1_step_span_counterexample :
    norbitsAt 1 [1, 1] 1 = 2
    ∧ specCumulativeOrbits 1 [1, 1] 1 = 3
    ∧ (seedTmp [[fun _ => 10], [fun _ => 11]] [fun _ => 20, fun _ => 21] 1 [1, 1] 1
          (mockstreamIter
            ⟨fun _ _ => [[fun _ => 10], [fun _ => 11]],
              fun ws a b _ => ws.map (fun s j => s j + (b - a))⟩
            [[fun _ => 10], [fun _ => 11]] [fun _ => 20, fun _ => 21]
            [0, 1/2] 1 1 1 [1, 1]
            ⟨List.replicate 2 default, List.replicate 3 default, 0⟩ 0).n
          (mockstreamIter
            ⟨fun _ _ => [[fun _ => 10], [fun _ => 11]],
              fun ws a b _ => ws.map (fun s j => s j + (b - a))⟩
            [[fun _ => 10], [fun _ => 11]] [fun _ => 20, fun _ => 21]
            [0, 1/2] 1 1 1 [1, 1]
            ⟨List.replicate 2 default, List.replicate 3 default, 0⟩ 0).w_tmp).take
        (norbitsAt 1 [1, 1] 1)
      = [fun _ => (11 : ℚ), fun _ => (21 : ℚ)]
    ∧ ((fun _ => (20 : ℚ)) : W6) ∉ ([fun _ => 11, fun _ => 21] : List W6) := by
  refine ⟨by decide, by decide, by decide, by decide⟩

/-- C1, amended: at every time step `i` the single-span stepping call (from
`stream_t1[i]` to the final time) advances exactly `nbodies + nstream[i]`
rows — the recorded massive-body states at step `i` followed by the
particles released at step `i` only.  The advanced span is fully determined
by the seeding and independent of the previous contents of the working
buffer: particles released at earlier steps do not persist into it (their
final states were already copied to the output buffer in their own
iteration).  With the cursor at its loop value `nsumBefore nstream i`, the
span equals `stepInputOf`. -/
theorem c1_step_span_amended (nbody_w : List (List W6)) (stream_w0 : List W6)
    (nbodies : ℕ) (nstream : List ℤ) (i : ℕ) (n : ℤ) (w w' : List W6)
    (hc0 : 0 ≤ nstream.getD i 0)
    (hw : nbodies + (nstream.getD i 0).toNat ≤ w.length)
    (hw' : nbodies + (nstream.getD i 0).toNat ≤ w'.length)
    (hrow : (nbody_w.getD i []).length = nbodies) :
    (seedTmp nbody_w stream_w0 nbodies nstream i n w).take
        (norbitsAt nbodies nstream i)
      = (nbody_w.getD i []) ++ releaseBatch stream_w0 nstream i n
    ∧ (seedTmp nbody_w stream_w0 nbodies nstream i n w').take
        (norbitsAt nbodies nstream i)
      = (seedTmp nbody_w stream_w0 nbodies nstream i n w).take
        (norbitsAt nbodies nstream i)
    ∧ ((seedTmp nbody_w stream_w0 nbodies nstream i n w).take
        (norbitsAt nbodies nstream i)).length
      = nbodies + (nstream.getD i 0).toNat
    ∧ (n = nsumBefore nstream i →
        (seedTmp nbody_w stream_w0 nbodies nstream i n w).take
            (norbitsAt nbodies nstream i)
          = stepInputOf nbody_w stream_w0 nbodies nstream i) := by
  have hABlen : ((nbody_w.getD i []) ++ releaseBatch stream_w0 nstream i n).length
      = nbodies + (nstream.getD i 0).toNat := by
    rw [List.length_append, hrow, releaseBatch_length]
  have htake : ∀ (u : List W6), nbodies + (nstream.getD i 0).toNat ≤ u.length →
      (seedTmp nbody_w stream_w0 nbodies nstream i n u).take
          (norbitsAt nbodies nstream i)
        = (nbody_w.getD i []) ++ releaseBatch stream_w0 nstream i n := by
    intro u hu
    rw [seedTmp_spec nbody_w stream_w0 nbodies nstream i n u hu hrow,
      norbitsAt_eq nbodies nstream i hc0, List.take_left' hABlen]
  refine ⟨htake w hw, by rw [htake w hw, htake w' hw'], ?_, ?_⟩
  · rw [htake w hw, hABlen]
  · intro hn
    rw [htake w hw, stepInputOf, List.take_of_length_le (le_of_eq hrow), hn]

/-- C1, witness for the amended theorem: the concrete step-1 data of the
counterexample, seeded over two different working buffers. -/
theorem c1_step_span_amended_witness :
    (0 ≤ ([1, 1] : List ℤ).getD 1 0)
    ∧ 1 + (([1, 1] : List ℤ).getD 1 0).toNat
        ≤ (List.replicate 2 (default : W6)).length
    ∧ 1 + (([1, 1] : List ℤ).getD 1 0).toNat
        ≤ ([fun _ => 99, fun _ => 98] : List W6).length
    ∧ (([[fun _ => 10], [fun _ => 11]] : List (List W6)).getD 1 []).length = 1
    ∧ (seedTmp [[fun _ => 10], [fun _ => 11]] [fun _ => 20, fun _ => 21] 1 [1, 1] 1
          (nsumBefore [1, 1] 1) (List.replicate 2 default)).take
        (norbitsAt 1 [1, 1] 1)
      = stepInputOf [[fun _ => 10], [fun _ => 11]] [fun _ => 20, fun _ => 21]
          1 [1, 1] 1 := by
  refine ⟨by decide, by decide, by decide, by decide, ?_⟩
  exact (c1_step_span_amended [[fun _ => 10], [fun _ => 11]]
    [fun _ => 20, fun _ => 21] 1 [1, 1] 1 (nsumBefore [1, 1] 1)
    (List.replicate 2 default) [fun _ => 99, fun _ => 98]
    (by decide) (by decide) (by decide) (by decide)).2.2.2 rfl

/-- C2: for a valid call (release counts nonnegative and one per time step, a
length-preserving stepping routine, correctly shaped phase-1 trajectories,
no interruption), the driver returns a single array of exactly
`nbodies + sum(nstream)` rows: the `nbodies` massive bodies' final states
(the last stepping call's leading rows, copied after the release loop)
followed by the stream particles' final states in release order; with every
release count zero the output has exactly `nbodies` rows and zero extra
rows. -/
theorem c2_output_layout (I : Integrator) (nbody_w0 : List W6) (time : List ℚ)
    (stream_w0 : List W6) (stream_t1 : List ℚ) (nstream : List ℤ) (sig : ℕ → Bool)
    (hstep : ∀ ws a b d, (I.step ws a b d).length = ws.length)
    (hpos : ∀ x ∈ nstream, 0 ≤ x)
    (hlen : nstream.length = time.length)
    (h1 : 1 ≤ time.length)
    (hsig : ∀ i, sig i = false)
    (hrow : ∀ i, i < nstream.length →
      ((I.helperSaveAll nbody_w0 time).getD i []).length = nbody_w0.length) :
    mockstream_dop853 I nbody_w0 time stream_w0 stream_t1 nstream sig
      = .ok ((I.step
            (stepInputOf (I.helperSaveAll nbody_w0 time) stream_w0 nbody_w0.length
              nstream (time.length - 1))
            (stream_t1.getD (time.length - 1) 0)
            (time.getD (time.length - 1) 0)
            (time.getD 1 0 - time.getD 0 0)).take nbody_w0.length
          ++ streamFinals I (I.helperSaveAll nbody_w0 time) stream_w0 stream_t1
              (time.getD (time.length - 1) 0) (time.getD 1 0 - time.getD 0 0)
              nbody_w0.length nstream time.length)
    ∧ ((I.step
          (stepInputOf (I.helperSaveAll nbody_w0 time) stream_w0 nbody_w0.length
            nstream (time.length - 1))
          (stream_t1.getD (time.length - 1) 0)
          (time.getD (time.length - 1) 0)
          (time.getD 1 0 - time.getD 0 0)).take nbody_w0.length).length
        = nbody_w0.length
    ∧ (streamFinals I (I.helperSaveAll nbody_w0 time) stream_w0 stream_t1
          (time.getD (time.length - 1) 0) (time.getD 1 0 - time.getD 0 0)
          nbody_w0.length nstream time.length).length
        = nstream.sum.toNat
    ∧ ((∀ x ∈ nstream, x = 0) →
        (streamFinals I (I.helperSaveAll nbody_w0 time) stream_w0 stream_t1
            (time.getD (time.length - 1) 0) (time.getD 1 0 - time.getD 0 0)
            nbody_w0.length nstream time.length).length = 0) := by
  have hj : time.length - 1 < nstream.length := by omega
  have hfinlen : (streamFinals I (I.helperSaveAll nbody_w0 time) stream_w0 stream_t1
        (time.getD (time.length - 1) 0) (time.getD 1 0 - time.getD 0 0)
        nbody_w0.length nstream time.length).length
      = nstream.sum.toNat := by
    rw [← hlen,
      streamFinals_length I (I.helperSaveAll nbody_w0 time) stream_w0 stream_t1
        (time.getD (nstream.length - 1) 0) (time.getD 1 0 - time.getD 0 0)
        nbody_w0.length nstream hstep hpos hrow nstream.length le_rfl,
      nsumBefore_length]
  refine ⟨mockstream_output I nbody_w0 time stream_w0 stream_t1 nstream sig
      hstep hpos hlen h1 hsig hrow, ?_, hfinlen, ?_⟩
  · rw [List.length_take, hstep,
      stepInputOf_length _ _ _ _ _ (hrow (time.length - 1) hj)]
    have := hpos _ (getD_mem_of_lt nstream (time.length - 1) hj)
    omega
  · intro hz
    rw [hfinlen, List.sum_eq_zero hz]
    rfl

/-- C2, witness: one massive body, two time steps, releases `[1, 0]`. -/
theorem c2_output_layout_witness :
    (∀ (ws : List W6) (a b d : ℚ),
      ((⟨fun _ _ => [[fun _ => 10], [fun _ => 10]],
          fun ws a b _ => ws.map (fun s j => s j + (b - a))⟩
        : Integrator).step ws a b d).length = ws.length)
    ∧ (∀ x ∈ ([1, 0] : List ℤ), 0 ≤ x)
    ∧ ([1, 0] : List ℤ).length = ([(0 : ℚ), 1] : List ℚ).length
    ∧ 1 ≤ ([(0 : ℚ), 1] : List ℚ).length
    ∧ (∀ i, i < ([1, 0] : List ℤ).length →
        (((⟨fun _ _ => [[fun _ => 10], [fun _ => 10]],
            fun ws a b _ => ws.map (fun s j => s j + (b - a))⟩
          : Integrator).helperSaveAll [fun _ => 10] [0, 1]).getD i []).length
          = ([fun _ => (10 : ℚ)] : List W6).length)
    ∧ mockstream_dop853
        ⟨fun _ _ => [[fun _ => 10], [fun _ => 10]],
          fun ws a b _ => ws.map (fun s j => s j + (b - a))⟩
        [fun _ => 10] [0, 1] [fun _ => 20] [0, 0] [1, 0] (fun _ => false)
      = .ok (((⟨fun _ _ => [[fun _ => 10], [fun _ => 10]],
            fun ws a b _ => ws.map (fun s j => s j + (b - a))⟩
          : Integrator).step
            (stepInputOf ((⟨fun _ _ => [[fun _ => 10], [fun _ => 10]],
                fun ws a b _ => ws.map (fun s j => s j + (b - a))⟩
              : Integrator).helperSaveAll [fun _ => 10] [0, 1]) [fun _ => 20]
              ([fun _ => (10 : ℚ)] : List W6).length [1, 0]
              (([(0 : ℚ), 1] : List ℚ).length - 1))
            (([(0 : ℚ), 0] : List ℚ).getD (([(0 : ℚ), 1] : List ℚ).length - 1) 0)
            (([(0 : ℚ), 1] : List ℚ).getD (([(0 : ℚ), 1] : List ℚ).length - 1) 0)
            (([(0 : ℚ), 1] : List ℚ).getD 1 0 - ([(0 : ℚ), 1] : List ℚ).getD 0 0)).take
            ([fun _ => (10 : ℚ)] : List W6).length
          ++ streamFinals
            ⟨fun _ _ => [[fun _ => 10], [fun _ => 10]],
              fun ws a b _ => ws.map (fun s j => s j + (b - a))⟩
            ((⟨fun _ _ => [[fun _ => 10], [fun _ => 10]],
                fun ws a b _ => ws.map (fun s j => s j + (b - a))⟩
              : Integrator).helperSaveAll [fun _ => 10] [0, 1]) [fun _ => 20]
            [0, 0]
            (([(0 : ℚ), 1] : List ℚ).getD (([(0 : ℚ), 1] : List ℚ).length - 1) 0)
            (([(0 : ℚ), 1] : List ℚ).getD 1 0 - ([(0 : ℚ), 1] : List ℚ).getD 0 0)
            ([fun _ => (10 : ℚ)] : List W6).length [1, 0]
            ([(0 : ℚ), 1] : List ℚ).length) := by
  refine ⟨fun ws a b d => by simp, by decide, by decide, by decide, by decide, ?_⟩
  exact (c2_output_layout
    ⟨fun _ _ => [[fun _ => 10], [fun _ => 10]],
      fun ws a b _ => ws.map (fun s j => s j + (b - a))⟩
    [fun _ => 10] [0, 1] [fun _ => 20] [0, 0] [1, 0] (fun _ => false)
    (fun ws a b d => by simp) (by decide) (by decide) (by decide)
    (fun i => rfl) (by decide)).1

/-- C6, counterexample.  The claim states a call with a negative release
count fails immediately with an `InvalidInput` error and performs no partial
execution.  With `nstream = [2, -1, 1]` (entry `-1` at step 1), one massive
body and three time steps, the driver raises nothing: it runs the whole
release loop and returns a result. -/
theorem c6_negative_nstream_counterexample :
    ((-1 : ℤ) ∈ ([2, -1, 1] : List ℤ))
    ∧ ((-1 : ℤ) < 0)
    ∧ isOkB (mockstream_dop853
        ⟨fun _ _ => [[fun _ => 10], [fun _ => 10], [fun _ => 10]],
          fun ws a b _ => ws.map (fun s j => s j + (b - a))⟩
        [fun _ => 10] [0, 1, 2] [fun _ => 20, fun _ => 21] [0, 0, 0]
        [2, -1, 1] (fun _ => false)) = true := by
  refine ⟨by decide, by decide, ?_⟩
  exact mockstream_isOk _ _ _ _ _ _ _ (by decide) (by decide) (by decide)
    (fun i => rfl)

/-- C6, amended: the driver performs no validation of the release counts.
For every call whose `nstream` contains a negative entry, as long as the
two numpy allocations succeed (`nbodies + max(nstream) ≥ 0` and
`nbodies + sum(nstream) ≥ 0`) and no interrupt is pending, no error is
raised and the loop executes all time steps, returning a result.  A negative
entry merely makes that step's Python `range` loops empty (its release batch
is empty) while still decrementing the output cursor `n`, so later batches
overwrite earlier output rows. -/
theorem c6_negative_nstream_amended (I : Integrator) (nbody_w0 : List W6)
    (time : List ℚ) (stream_w0 : List W6) (stream_t1 : List ℚ)
    (nstream : List ℤ) (sig : ℕ → Bool)
    (hneg : ∃ x ∈ nstream, x < 0)
    (hne : nstream ≠ [])
    (hmaxn : 0 ≤ (nbody_w0.length : ℤ) + npMax nstream)
    (hsumn : 0 ≤ (nbody_w0.length : ℤ) + nstream.sum)
    (hsig : ∀ i, sig i = false) :
    isOkB (mockstream_dop853 I nbody_w0 time stream_w0 stream_t1 nstream sig)
      = true
    ∧ (∀ (i : ℕ) (n : ℤ), nstream.getD i 0 < 0 →
        releaseBatch stream_w0 nstream i n = [])
    ∧ (∀ (st : LoopState) (i : ℕ) (nbody_w : List (List W6))
        (t2 dt0 : ℚ) (nbodies : ℕ), nstream.getD i 0 < 0 →
        (mockstreamIter I nbody_w stream_w0 stream_t1 t2 dt0 nbodies nstream
          st i).n < st.n) := by
  refine ⟨mockstream_isOk I nbody_w0 time stream_w0 stream_t1 nstream sig
      hne hmaxn hsumn hsig, ?_, ?_⟩
  · intro i n hi
    have h0 : (nstream.getD i 0).toNat = 0 := by omega
    rw [← List.length_eq_zero]
    rw [releaseBatch_length, h0]
  · intro st i nbody_w t2 dt0 nbodies hi
    rw [mockstreamIter_n]
    omega

/-- C6, witness: the same `nstream = [2, -1, 1]` input as the
counterexample, run through the amended theorem. -/
theorem c6_negative_nstream_amended_witness :
    (∃ x ∈ ([2, -1, 1] : List ℤ), x < 0)
    ∧ (([2, -1, 1] : List ℤ) ≠ [])
    ∧ 0 ≤ (([fun _ => 10] : List W6).length : ℤ) + npMax [2, -1, 1]
    ∧ 0 ≤ (([fun _ => 10] : List W6).length : ℤ) + ([2, -1, 1] : List ℤ).sum
    ∧ isOkB (mockstream_dop853
        ⟨fun _ _ => [[fun _ => 10], [fun _ => 10], [fun _ => 10]],
          fun ws _ _ _ => ws⟩
        [fun _ => 10] [0, 1, 2] [fun _ => 20, fun _ => 21] [0, 0, 0]
        [2, -1, 1] (fun _ => false)) = true := by
  refine ⟨⟨-1, by decide, by decide⟩, by decide, by decide, by decide, ?_⟩
  exact (c6_negative_nstream_amended
    ⟨fun _ _ => [[fun _ => 10], [fun _ => 10], [fun _ => 10]],
      fun ws _ _ _ => ws⟩
    [fun _ => 10] [0, 1, 2] [fun _ => 20, fun _ => 21] [0, 0, 0]
    [2, -1, 1] (fun _ => false)
    ⟨-1, by decide, by decide⟩ (by decide) (by decide) (by decide)
    (fun i => rfl)).1
